import Mathlib

/-!
# SimpleDB expression evaluator: `src/sql_parser/Expression.cpp`

A shallow embedding of the scalar-expression evaluator (`calcExpression`), the
term resolver (`term2val`), the column cache (`column_cache` and its three
mutators) and the `LIKE` pattern translator (`strlike`).

Conventions of the embedding.

* The process-wide `column_cache` is passed explicitly.  A
  `std::multimap<string, table_value_t>` is a list of entries in iteration
  order: ascending by key, entries with equal keys in insertion order.
* `throw (int) EXCEPTION_...` is `Except.error (Abort.exception ...)`.  Two
  ways of leaving the evaluator that are not such a throw are kept apart:
  `std::regex_error` raised by the `std::regex` constructor, and the runtime
  fault of an integer division (a zero divisor, or the least integer divided
  by -1, whose quotient is out of range).
* `ExprVal` (a type tag and a union) is the sum of its five well-tagged forms.
* A C string is the Lean `String` of the characters before its terminator;
  each `Char` stands for one `char`.
* The library calls `std::regex` and `std::regex_match` are a parameter
  `regex_match` of `strlike` and of the evaluator.  Statements on `LIKE` assume
  that the parameter conforms to the library on a fragment of the ECMAScript
  grammar (`regex_conforms`); `std_regex_model` is an engine that does.
* The header `Expression.h` is not part of the sources.  What the evaluator
  needs from it (the enumerations, the `OPER_UNARY` mask, the width of
  `value_i`, the default constructor of `ExprVal`) is introduced below, each
  under a comment that says so.
-/

namespace SimpleDB

/-! ## Data model -/

/-- Indices of `Exception2String`, in the order of that table.  The source names
the entries 1, 2, 4 and 5; entry 3 ("Unimplemented yet") is never thrown. -/
inductive Exception
  | EXCEPTION_NONE
  | EXCEPTION_DIFF_TYPE
  | EXCEPTION_ILLEGAL_OP
  | EXCEPTION_UNIMPLEMENTED
  | EXCEPTION_COL_NOT_UNIQUE
  | EXCEPTION_UNKOWN_COLUMN
  deriving DecidableEq

/-- The ways an evaluation ends without a value. -/
inductive Abort
  /-- The C++ statement `throw (int) e`. -/
  | exception (e : Exception)
  /-- The constructor `std::regex reg(regstr)` threw `std::regex_error`. -/
  | regex_error
  /-- The unguarded integer division traps: the divisor is zero, or the least
  integer is divided by -1.  A fatal runtime fault. -/
  | fault
  deriving DecidableEq

/-- The enumeration `term_type`, with the seven tags the source uses. -/
inductive term_type
  | TERM_NONE
  | TERM_INT
  | TERM_STRING
  | TERM_DOUBLE
  | TERM_BOOL
  | TERM_COLUMN
  | TERM_NULL
  deriving DecidableEq

/-- The operator tags the source uses (`OPER_NONE`, which marks a term, is the
constructor `expr_node.leaf` below). -/
inductive operator_type
  | OPER_ADD
  | OPER_DEC
  | OPER_MUL
  | OPER_DIV
  | OPER_EQU
  | OPER_GT
  | OPER_GE
  | OPER_LT
  | OPER_LE
  | OPER_NEQ
  | OPER_NEG
  | OPER_ISNULL
  | OPER_AND
  | OPER_OR
  | OPER_NOT
  | OPER_LIKE
  deriving DecidableEq

open Exception term_type operator_type

/-- Modelled from the spec: the mask test `op & OPER_UNARY`, whose bit layout is
declared in `Expression.h`, absent from the sources.  The spec names the unary
operators: unary negate, unary `NOT`, and `IS NULL` ("a distinct unary
operator"); the right child is present unless the operator is unary. -/
def OPER_UNARY : operator_type → Bool
  | OPER_NEG => true
  | OPER_NOT => true
  | OPER_ISNULL => true
  | _ => false

/-- The class `ExprVal`: a `term_type` tag and the union member it selects. -/
inductive ExprVal
  | int (value_i : Int)
  | double (value_d : Float)
  | string (value_s : String)
  | bool (value_b : Bool)
  | null

namespace ExprVal

/-- The field `type`. -/
def type : ExprVal → term_type
  | int _ => TERM_INT
  | double _ => TERM_DOUBLE
  | string _ => TERM_STRING
  | bool _ => TERM_BOOL
  | null => TERM_NULL

/-- The member `value.value_i`.  The evaluator reads a union member only under
the tag that selects it; elsewhere the accessor returns a fixed value. -/
def value_i : ExprVal → Int
  | int i => i
  | _ => 0

/-- The member `value.value_d`. -/
def value_d : ExprVal → Float
  | double d => d
  | _ => 0.0

/-- The member `value.value_s`. -/
def value_s : ExprVal → String
  | string s => s
  | _ => ""

/-- The member `value.value_b`. -/
def value_b : ExprVal → Bool
  | bool b => b
  | _ => false

end ExprVal

/-- Modelled from the spec: the default constructor `ExprVal()`, declared in
`Expression.h`, absent from the sources.  Of the five variants of the spec's
Typed Value, `Null` is the one that carries no payload.  `calcExpression`
builds this value for the right operand of a unary operator and never reads
it (`calcOperator_unary_rv`). -/
def ExprVal_default : ExprVal := ExprVal.null

/-- The struct behind `expr->column`: the column name and the optional table. -/
structure column_ref where
  table : Option String
  column : String

/-- A term node (`op == OPER_NONE`): its `term_type` and literal payload. -/
inductive term
  | TERM_INT (literal_i : Int)
  | TERM_STRING (literal_s : String)
  | TERM_DOUBLE (literal_d : Float)
  | TERM_BOOL (literal_b : Bool)
  | TERM_COLUMN (column : column_ref)
  | TERM_NULL

/-- The struct `expr_node`: a term, or an operator with its two child pointers.
The right child of a unary operator is never dereferenced. -/
inductive expr_node
  | leaf (t : term)
  | node (op : operator_type) (left right : expr_node)

/-! ## Machine integers -/

/-- Modelled from the spec: the width of `value_i`, declared in `Expression.h`,
absent from the sources; the spec's data model gives `Int(i64)`. -/
def INT_BITS : Nat := 64

/-- The two's-complement representative of `x` in `[-2^(w-1), 2^(w-1))`: signed
arithmetic is taken modulo `2^INT_BITS`. -/
def int_wrap (x : Int) : Int :=
  (x + 2 ^ (INT_BITS - 1)) % 2 ^ INT_BITS - 2 ^ (INT_BITS - 1)

/-! ## Column cache -/

/-- The typedef `table_value_t`: table name and value. -/
abbrev table_value_t := String × ExprVal

/-- The state of `column_cache`, a `std::multimap<string, table_value_t>`, as
the list of its entries in iteration order. -/
abbrev column_cache_t := List (String × table_value_t)

/-- The order invariant of the multimap: keys ascend along the iteration. -/
def cache_sorted (m : column_cache_t) : Prop :=
  m.Pairwise (fun x y => ¬ y.1 < x.1)

/-- Library `multimap::insert`: the entry goes after every entry whose key is
not greater than its own (the upper bound of its key).  Keys compare as
`std::string` does, character by character, a proper prefix being smaller. -/
def multimap_insert (e : String × table_value_t) : column_cache_t → column_cache_t
  | [] => [e]
  | x :: xs => if e.1 < x.1 then e :: x :: xs else x :: multimap_insert e xs

/-- Library `multimap::count`: the number of entries with key `k`. -/
def multimap_count (k : String) (m : column_cache_t) : Nat :=
  m.countP (fun x => decide (x.1 = k))

/-- Library lower bound: the iteration from the first entry whose key is not
less than `k`. -/
def multimap_lower_bound (k : String) : column_cache_t → column_cache_t
  | [] => []
  | x :: xs => if x.1 < k then multimap_lower_bound k xs else x :: xs

/-- Library `multimap::find`, as the iteration that starts at the returned
iterator (`[]` is `end()`): the lower bound of `k` when its key is `k`, that
is the first entry of the key, as the libstdc++ and libc++ trees return it. -/
def multimap_find (k : String) (m : column_cache_t) : column_cache_t :=
  match multimap_lower_bound k m with
  | [] => []
  | x :: xs => if k < x.1 then [] else x :: xs

/-- The function `clean_column_cache`. -/
def clean_column_cache (_column_cache : column_cache_t) : column_cache_t := []

/-- The function `clean_column_cache_by_table`: the erase loop, entry by entry. -/
def clean_column_cache_by_table (table : String) : column_cache_t → column_cache_t
  | [] => []
  | it :: rest =>
    if it.2.1 = table then clean_column_cache_by_table table rest
    else it :: clean_column_cache_by_table table rest

/-- The function `update_column_cache`. -/
def update_column_cache (col_name table : String) (v : ExprVal)
    (column_cache : column_cache_t) : column_cache_t :=
  multimap_insert (col_name, (table, v)) column_cache

/-- The scan `for (; it != column_cache.end(); ++it)` of `term2val`: the value
of the first entry from `it` on that passes the table test, if any. -/
def term2val_scan (table : Option String) : column_cache_t → Option ExprVal
  | [] => none
  | it :: rest =>
    if table = none ∨ some it.2.1 = table then some it.2.2
    else term2val_scan table rest

/-- The function `term2val`. -/
def term2val (column_cache : column_cache_t) : term → Except Abort ExprVal
  | term.TERM_INT literal_i => .ok (ExprVal.int literal_i)
  | term.TERM_STRING literal_s => .ok (ExprVal.string literal_s)
  | term.TERM_DOUBLE literal_d => .ok (ExprVal.double literal_d)
  | term.TERM_BOOL literal_b => .ok (ExprVal.bool literal_b)
  | term.TERM_COLUMN column =>
    let cnt := multimap_count column.column column_cache
    if cnt = 0 then .error (Abort.exception EXCEPTION_UNKOWN_COLUMN)
    else if cnt > 1 ∧ column.table = none then
      .error (Abort.exception EXCEPTION_COL_NOT_UNIQUE)
    else
      match term2val_scan column.table (multimap_find column.column column_cache) with
      | some ret => .ok ret
      | none => .error (Abort.exception EXCEPTION_UNKOWN_COLUMN)
  | term.TERM_NULL => .ok ExprVal.null

/-! ## String primitives -/

/-- Library `strcasecmp` on the characters of two C strings: the difference of
the first pair of characters that differ after `tolower`, the terminator
counting as character 0; 0 when there is none.  `tolower` is that of the "C"
locale (`Char.toLower`: `A`..`Z` go to `a`..`z`, every other character stays). -/
def strcasecmp : List Char → List Char → Int
  | [], [] => 0
  | [], c2 :: _ => 0 - (c2.toLower.toNat : Int)
  | c1 :: _, [] => (c1.toLower.toNat : Int) - 0
  | c1 :: s1, c2 :: s2 =>
    if c1.toLower = c2.toLower then strcasecmp s1 s2
    else (c1.toLower.toNat : Int) - (c2.toLower.toNat : Int)

/-- The variable `status` of `strlike`; it only ever holds these three values,
so the closing `assert(0)` branch is not reachable. -/
inductive strlike_status
  | A
  | B
  | C
  deriving DecidableEq

/-- The loop of `strlike` over the pattern `b`: it extends `regstr` one pattern
character at a time. -/
def strlike_loop : List Char → strlike_status → List Char → List Char
  | [], _, regstr => regstr
  | bi :: b, strlike_status.A, regstr =>
    if bi = '\\' then strlike_loop b strlike_status.B regstr
    else if bi = '[' then strlike_loop b strlike_status.C (regstr ++ ['['])
    else if bi = '%' then strlike_loop b strlike_status.A (regstr ++ ['.', '*'])
    else if bi = '_' then strlike_loop b strlike_status.A (regstr ++ ['.'])
    else strlike_loop b strlike_status.A (regstr ++ [bi])
  | bi :: b, strlike_status.B, regstr =>
    if bi = '%' ∨ bi = '_' ∨ bi = '!' then
      strlike_loop b strlike_status.A (regstr ++ [bi])
    else strlike_loop b strlike_status.A (regstr ++ ['\\'] ++ [bi])
  | bi :: b, strlike_status.C, regstr =>
    if bi = '!' then strlike_loop b strlike_status.A (regstr ++ ['^'])
    else strlike_loop b strlike_status.A (regstr ++ [bi])

/-- The function `strlike`.  The library calls `std::regex reg(regstr)` and
`std::regex_match(a, reg)` are the parameter `regex_match subject regstr`:
`none` when the constructor throws `std::regex_error`, otherwise the result of
the whole-string match. -/
def strlike (regex_match : List Char → List Char → Option Bool) (a b : String) :
    Except Abort Bool :=
  match regex_match a.data (strlike_loop b.data strlike_status.A []) with
  | some r => .ok r
  | none => .error Abort.regex_error

/-! ## Expression evaluator -/

/-- The body of `calcExpression` once both operands are evaluated (from the
Null test on `rv` to `return result`). -/
def calcOperator (regex_match : List Char → List Char → Option Bool)
    (op : operator_type) (lv rv : ExprVal) : Except Abort ExprVal :=
  if !(OPER_UNARY op) && rv.type = TERM_NULL then .ok ExprVal.null
  else if !(OPER_UNARY op) && lv.type ≠ rv.type && lv.type ≠ TERM_NULL then
    .error (Abort.exception EXCEPTION_DIFF_TYPE)
  else
    match lv with
    | ExprVal.int value_i =>
      match op with
      | OPER_ADD => .ok (ExprVal.int (int_wrap (value_i + rv.value_i)))
      | OPER_DEC => .ok (ExprVal.int (int_wrap (value_i - rv.value_i)))
      | OPER_MUL => .ok (ExprVal.int (int_wrap (value_i * rv.value_i)))
      | OPER_DIV =>
        if rv.value_i = 0 then .error Abort.fault
        else if value_i = -(2 ^ (INT_BITS - 1)) ∧ rv.value_i = -1 then .error Abort.fault
        else .ok (ExprVal.int (int_wrap (Int.tdiv value_i rv.value_i)))
      | OPER_EQU => .ok (ExprVal.bool (decide (value_i = rv.value_i)))
      | OPER_GT => .ok (ExprVal.bool (decide (value_i > rv.value_i)))
      | OPER_GE => .ok (ExprVal.bool (decide (value_i ≥ rv.value_i)))
      | OPER_LT => .ok (ExprVal.bool (decide (value_i < rv.value_i)))
      | OPER_LE => .ok (ExprVal.bool (decide (value_i ≤ rv.value_i)))
      | OPER_NEQ => .ok (ExprVal.bool (decide (value_i ≠ rv.value_i)))
      | OPER_NEG => .ok (ExprVal.int (int_wrap (-value_i)))
      | OPER_ISNULL => .ok (ExprVal.bool false)
      | _ => .error (Abort.exception EXCEPTION_ILLEGAL_OP)
    | ExprVal.double value_d =>
      match op with
      | OPER_ADD => .ok (ExprVal.double (value_d + rv.value_d))
      | OPER_DEC => .ok (ExprVal.double (value_d - rv.value_d))
      | OPER_MUL => .ok (ExprVal.double (value_d * rv.value_d))
      | OPER_DIV => .ok (ExprVal.double (value_d / rv.value_d))
      | OPER_EQU => .ok (ExprVal.bool (value_d == rv.value_d))
      | OPER_GT => .ok (ExprVal.bool (decide (value_d > rv.value_d)))
      | OPER_GE => .ok (ExprVal.bool (decide (value_d ≥ rv.value_d)))
      | OPER_LT => .ok (ExprVal.bool (decide (value_d < rv.value_d)))
      | OPER_LE => .ok (ExprVal.bool (decide (value_d ≤ rv.value_d)))
      | OPER_NEQ => .ok (ExprVal.bool (value_d != rv.value_d))
      | OPER_NEG => .ok (ExprVal.double (-value_d))
      | OPER_ISNULL => .ok (ExprVal.bool false)
      | _ => .error (Abort.exception EXCEPTION_ILLEGAL_OP)
    | ExprVal.bool value_b =>
      match op with
      | OPER_AND => .ok (ExprVal.bool (value_b && rv.value_b))
      | OPER_OR => .ok (ExprVal.bool (value_b || rv.value_b))
      | OPER_EQU => .ok (ExprVal.bool (value_b == rv.value_b))
      | OPER_NOT => .ok (ExprVal.bool (!value_b))
      | OPER_ISNULL => .ok (ExprVal.bool false)
      | _ => .error (Abort.exception EXCEPTION_ILLEGAL_OP)
    | ExprVal.string value_s =>
      match op with
      | OPER_EQU =>
        .ok (ExprVal.bool (decide (strcasecmp value_s.data rv.value_s.data = 0)))
      | OPER_NEQ =>
        .ok (ExprVal.bool (decide (strcasecmp value_s.data rv.value_s.data ≠ 0)))
      | OPER_LIKE =>
        match strlike regex_match value_s rv.value_s with
        | .ok r => .ok (ExprVal.bool r)
        | .error e => .error e
      | OPER_ISNULL => .ok (ExprVal.bool false)
      | _ => .error (Abort.exception EXCEPTION_ILLEGAL_OP)
    | ExprVal.null =>
      if op = OPER_ISNULL then .ok (ExprVal.bool true) else .ok ExprVal.null

/-- The function `calcExpression`: a term goes to `term2val`; an operator node
evaluates its left child, then (unless the operator is unary) its right child,
and applies the operator. -/
def calcExpression (regex_match : List Char → List Char → Option Bool)
    (column_cache : column_cache_t) : expr_node → Except Abort ExprVal
  | expr_node.leaf t => term2val column_cache t
  | expr_node.node op left right =>
    match calcExpression regex_match column_cache left with
    | .error e => .error e
    | .ok lv =>
      if OPER_UNARY op then calcOperator regex_match op lv ExprVal_default
      else
        match calcExpression regex_match column_cache right with
        | .error e => .error e
        | .ok rv => calcOperator regex_match op lv rv

/-- An engine that rejects every regular expression.  It stands for the library
in closed statements about expressions that do not reach `LIKE`. -/
def regex_reject : List Char → List Char → Option Bool := fun _ _ => none

/-- The cache reached from the empty cache by a sequence of
`update_column_cache(col_name, table, v)` calls, in order. -/
def cache_of_inserts (calls : List (String × String × ExprVal)) : column_cache_t :=
  calls.foldl (fun m c => update_column_cache c.1 c.2.1 c.2.2 m) []

/-! ## Direct value primitives -/

/-- The range of `value_i`: `[-2^(w-1), 2^(w-1))` for `w = INT_BITS`. -/
def int_in_range (x : Int) : Prop :=
  -(2 ^ (INT_BITS - 1)) ≤ x ∧ x < 2 ^ (INT_BITS - 1)

/-- The member `ExprVal::operator<` (`a` is `*this`). -/
def ExprVal.operator_lt (a b : ExprVal) : Except Abort Bool :=
  if b.type = TERM_NULL ∨ a.type = TERM_NULL then .ok false
  else if a.type ≠ b.type then .error (Abort.exception EXCEPTION_DIFF_TYPE)
  else
    match a with
    | ExprVal.int value_i => .ok (decide (value_i < b.value_i))
    | ExprVal.double value_d => .ok (decide (value_d < b.value_d))
    | _ => .error (Abort.exception EXCEPTION_ILLEGAL_OP)

/-- The member `ExprVal::operator+=` (`a` is `*this`); the result is the state
of `*this` after the call. -/
def ExprVal.operator_add_assign (a b : ExprVal) : Except Abort ExprVal :=
  if b.type = TERM_NULL ∨ a.type = TERM_NULL then .ok a
  else if a.type ≠ b.type then .error (Abort.exception EXCEPTION_DIFF_TYPE)
  else
    match a with
    | ExprVal.int value_i => .ok (ExprVal.int (int_wrap (value_i + b.value_i)))
    | ExprVal.double value_d => .ok (ExprVal.double (value_d + b.value_d))
    | _ => .error (Abort.exception EXCEPTION_ILLEGAL_OP)

/-- The per-variant operator tables as the spec lists them (evaluator, step 5):
the operators that the variant of the left operand supports. -/
def operator_table : term_type → List operator_type
  | TERM_INT => [OPER_ADD, OPER_DEC, OPER_MUL, OPER_DIV, OPER_EQU, OPER_GT, OPER_GE,
      OPER_LT, OPER_LE, OPER_NEQ, OPER_NEG, OPER_ISNULL]
  | TERM_DOUBLE => [OPER_ADD, OPER_DEC, OPER_MUL, OPER_DIV, OPER_EQU, OPER_GT, OPER_GE,
      OPER_LT, OPER_LE, OPER_NEQ, OPER_NEG, OPER_ISNULL]
  | TERM_BOOL => [OPER_AND, OPER_OR, OPER_EQU, OPER_NOT, OPER_ISNULL]
  | TERM_STRING => [OPER_EQU, OPER_NEQ, OPER_LIKE, OPER_ISNULL]
  | _ => []

/-! ## The regular-expression library

`std::regex` (ECMAScript grammar, default flags) and `std::regex_match` are
library code.  The part of their behaviour that the statements on `LIKE` rest
on is written down here for a fragment of the grammar: a sequence of terms,
each an ordinary character, `.` or a bracket expression of plain members,
optionally followed by `*`.  An expression outside the fragment is left
unspecified (`regex_outcome.beyond`), not rejected. -/

/-- The syntax characters of the ECMAScript grammar; every other character is
an ordinary pattern character, which matches itself. -/
def regex_syntax_char (c : Char) : Bool :=
  c = '^' || c = '$' || c = '\\' || c = '.' || c = '*' || c = '+' || c = '?' ||
  c = '(' || c = ')' || c = '[' || c = ']' || c = '{' || c = '}' || c = '|'

/-- A character that stands for itself inside a bracket expression, wherever it
is placed there. -/
def regex_bracket_member (c : Char) : Bool :=
  !(c = '\\' || c = ']' || c = '-' || c = '[' || c = '^')

/-- The atoms of the fragment. -/
inductive regex_atom
  /-- An ordinary character. -/
  | chr (c : Char)
  /-- The atom `.`. -/
  | any
  /-- A bracket expression `[...]` or `[^...]` of plain members. -/
  | bracket (negated : Bool) (members : List Char)

/-- A term: an atom, starred or not. -/
structure regex_term where
  atom : regex_atom
  star : Bool

/-- What the constructor `std::regex reg(regstr)` makes of an expression. -/
inductive regex_outcome
  /-- The constructor succeeds; the expression is this sequence of terms. -/
  | accepted (terms : List regex_term)
  /-- The constructor throws `std::regex_error`. -/
  | rejected
  /-- The expression is outside the fragment: nothing is said about it. -/
  | beyond

/-- Put a term in front of the terms of the rest of the expression. -/
def regex_outcome.cons (t : regex_term) : regex_outcome → regex_outcome
  | regex_outcome.accepted terms => regex_outcome.accepted (t :: terms)
  | regex_outcome.rejected => regex_outcome.rejected
  | regex_outcome.beyond => regex_outcome.beyond

/-- Where the reading of an expression stands. -/
inductive regex_mode
  /-- Between terms; `pending` is an atom just read, which `*` may still star. -/
  | term (pending : Option regex_atom)
  /-- Right after `[`. -/
  | bracket_open
  /-- Inside a bracket expression, after the members read so far. -/
  | bracket (negated : Bool) (members : List Char)

/-- The term a pending atom becomes when no `*` follows it. -/
def regex_flush (pending : Option regex_atom) (r : regex_outcome) : regex_outcome :=
  match pending with
  | some a => regex_outcome.cons ⟨a, false⟩ r
  | none => r

/-- Read an expression from left to right.  A bracket expression that is still
open at the end of the expression is an error (`error_brack`).  An empty
bracket expression, a range, an escape, a group, an alternation, an anchor,
and a quantifier other than a single `*` after an atom are outside the
fragment. -/
def regex_parse : regex_mode → List Char → regex_outcome
  | regex_mode.term pending, [] => regex_flush pending (regex_outcome.accepted [])
  | regex_mode.term pending, c :: rest =>
    if c = '*' then
      match pending with
      | some a => regex_outcome.cons ⟨a, true⟩ (regex_parse (regex_mode.term none) rest)
      | none => regex_outcome.beyond
    else if c = '[' then regex_flush pending (regex_parse regex_mode.bracket_open rest)
    else if c = '.' then
      regex_flush pending (regex_parse (regex_mode.term (some regex_atom.any)) rest)
    else if regex_syntax_char c then regex_outcome.beyond
    else regex_flush pending (regex_parse (regex_mode.term (some (regex_atom.chr c))) rest)
  | regex_mode.bracket_open, [] => regex_outcome.rejected
  | regex_mode.bracket_open, c :: rest =>
    if c = '^' then regex_parse (regex_mode.bracket true []) rest
    else if regex_bracket_member c then regex_parse (regex_mode.bracket false [c]) rest
    else regex_outcome.beyond
  | regex_mode.bracket _ _, [] => regex_outcome.rejected
  | regex_mode.bracket negated members, c :: rest =>
    if c = ']' then
      if members = [] then regex_outcome.beyond
      else regex_parse (regex_mode.term (some (regex_atom.bracket negated members))) rest
    else if regex_bracket_member c then
      regex_parse (regex_mode.bracket negated (members ++ [c])) rest
    else regex_outcome.beyond

/-- Library `std::regex reg(regstr)`: an expression that starts with `*` has
nothing to repeat and is an error; otherwise the expression is read. -/
def std_regex_ctor (regstr : List Char) : regex_outcome :=
  match regstr with
  | [] => regex_parse (regex_mode.term none) []
  | c :: rest =>
    if c = '*' then regex_outcome.rejected
    else regex_parse (regex_mode.term none) (c :: rest)

/-- The characters an atom matches.  `.` matches every character except the
line terminators `\n` and `\r`; a negated bracket expression matches every
character that is not a member. -/
def regex_atom_matches : regex_atom → Char → Bool
  | regex_atom.chr c, x => x = c
  | regex_atom.any, x => !(x = '\n' || x = '\r')
  | regex_atom.bracket negated members, x =>
    if negated then !(members.contains x) else members.contains x

/-- A starred atom in front of a continuation `k`: the continuation matches
here, or the atom matches one character and the starred atom goes on. -/
def regex_star_match (p : Char → Bool) (k : List Char → Bool) : List Char → Bool
  | [] => k []
  | c :: s => k (c :: s) || (p c && regex_star_match p k s)

/-- Library `std::regex_match`: the terms match the whole subject. -/
def regex_terms_match : List regex_term → List Char → Bool
  | [], s => s.isEmpty
  | t :: terms, s =>
    if t.star then regex_star_match (regex_atom_matches t.atom) (regex_terms_match terms) s
    else
      match s with
      | [] => false
      | c :: s2 => regex_atom_matches t.atom c && regex_terms_match terms s2

/-- The library calls of `strlike` on the fragment: `some none` when the
constructor throws, `some (some b)` when `std::regex_match` returns `b`, and
`none` where the expression is outside the fragment. -/
def std_regex_spec (subject regstr : List Char) : Option (Option Bool) :=
  match std_regex_ctor regstr with
  | regex_outcome.accepted terms => some (some (regex_terms_match terms subject))
  | regex_outcome.rejected => some none
  | regex_outcome.beyond => none

/-- An engine conforms when it behaves as the library does on the fragment. -/
def regex_conforms (regex_match : List Char → List Char → Option Bool) : Prop :=
  ∀ subject regstr r, std_regex_spec subject regstr = some r → regex_match subject regstr = r

/-- A conforming engine, for closed statements; outside the fragment, where
nothing is specified, it reports an error. -/
def std_regex_model (subject regstr : List Char) : Option Bool :=
  match std_regex_spec subject regstr with
  | some r => r
  | none => none

/-- The text of an atom. -/
def regex_atom.render : regex_atom → List Char
  | regex_atom.chr c => [c]
  | regex_atom.any => ['.']
  | regex_atom.bracket negated members =>
    ['['] ++ (if negated then ['^'] else []) ++ members ++ [']']

/-- The text of a term. -/
def regex_term.render (t : regex_term) : List Char :=
  t.atom.render ++ (if t.star then ['*'] else [])

/-- The atoms whose text the fragment reads back as that atom. -/
def regex_atom.plain : regex_atom → Prop
  | regex_atom.chr c => regex_syntax_char c = false
  | regex_atom.any => True
  | regex_atom.bracket _ members =>
    members ≠ [] ∧ ∀ m ∈ members, regex_bracket_member m = true

/-! ## `LIKE` wildcards as the spec words them -/

/-- The subject splits along the pattern: a literal pattern character takes the
same subject character, `_` takes exactly one character and `%` takes any run
of characters, possibly empty; `wild` says which characters the two wildcards
may take. -/
def like_split (wild : Char → Prop) : List Char → List Char → Prop
  | [], s => s = []
  | p :: pattern, s =>
    if p = '%' then
      ∃ run rest, s = run ++ rest ∧ (∀ c ∈ run, wild c) ∧ like_split wild pattern rest
    else if p = '_' then ∃ c rest, s = c :: rest ∧ wild c ∧ like_split wild pattern rest
    else ∃ rest, s = p :: rest ∧ like_split wild pattern rest

/-- The regular-expression terms of a wildcard pattern. -/
def like_terms : List Char → List regex_term
  | [] => []
  | p :: pattern =>
    (if p = '%' then ⟨regex_atom.any, true⟩
      else if p = '_' then ⟨regex_atom.any, false⟩
      else ⟨regex_atom.chr p, false⟩) :: like_terms pattern

/-- The text of a pattern given unit by unit: a unit is one character, written
after a backslash when its flag is set. -/
def like_units_text (units : List (Bool × Char)) : List Char :=
  units.flatMap (fun u => if u.1 then ['\\', u.2] else [u.2])

/-! ## Evaluation of an operator node -/

/-- A binary node whose children both evaluate applies the operator to the two
values. -/
theorem calcExpression_binary (regex_match : List Char → List Char → Option Bool)
    (column_cache : column_cache_t) (op : operator_type) (left right : expr_node)
    (lv rv : ExprVal) (hop : OPER_UNARY op = false)
    (hl : calcExpression regex_match column_cache left = .ok lv)
    (hr : calcExpression regex_match column_cache right = .ok rv) :
    calcExpression regex_match column_cache (expr_node.node op left right)
      = calcOperator regex_match op lv rv := by
  simp [calcExpression, hl, hr, hop]

/-- A unary node whose left child evaluates applies the operator to that value;
the right child is not evaluated. -/
theorem calcExpression_unary (regex_match : List Char → List Char → Option Bool)
    (column_cache : column_cache_t) (op : operator_type) (left right : expr_node)
    (lv : ExprVal) (hop : OPER_UNARY op = true)
    (hl : calcExpression regex_match column_cache left = .ok lv) :
    calcExpression regex_match column_cache (expr_node.node op left right)
      = calcOperator regex_match op lv ExprVal_default := by
  simp [calcExpression, hl, hop]

/-- For a unary operator the value passed as right operand is never read. -/
theorem calcOperator_unary_rv (regex_match : List Char → List Char → Option Bool)
    (op : operator_type) (lv rv rv2 : ExprVal) (hop : OPER_UNARY op = true) :
    calcOperator regex_match op lv rv = calcOperator regex_match op lv rv2 := by
  cases op <;> simp [OPER_UNARY] at hop <;> cases lv <;> simp [calcOperator, OPER_UNARY]

/-! ## Null propagation and type agreement -/

/-- C1: for every binary operator and every left operand that evaluates to a
value, if the right operand evaluates to Null (the Null literal in particular)
the node evaluates to Null; no failure is raised, whatever the operator. -/
theorem calcExpression_right_null (regex_match : List Char → List Char → Option Bool)
    (column_cache : column_cache_t) (op : operator_type) (left right : expr_node)
    (lv : ExprVal) (hop : OPER_UNARY op = false)
    (hl : calcExpression regex_match column_cache left = .ok lv)
    (hr : calcExpression regex_match column_cache right = .ok ExprVal.null) :
    calcExpression regex_match column_cache (expr_node.node op left right)
      = .ok ExprVal.null := by
  rw [calcExpression_binary regex_match column_cache op left right lv _ hop hl hr]
  simp [calcOperator, hop, ExprVal.type]

/-- Witness of C1: `Int(1) AND Null` and the Null literal on the right. -/
theorem calcExpression_right_null_witness :
    calcExpression regex_reject [] (expr_node.node OPER_AND
        (expr_node.leaf (term.TERM_INT 1)) (expr_node.leaf term.TERM_NULL))
      = .ok ExprVal.null :=
  calcExpression_right_null regex_reject [] OPER_AND _ _ (ExprVal.int 1) rfl rfl rfl

/-- C2: when the left operand evaluates to Null and the right operand of a
binary operator evaluates to any value, every operator other than `IS NULL`
gives Null, and `IS NULL` gives Bool(true). -/
theorem calcExpression_left_null (regex_match : List Char → List Char → Option Bool)
    (column_cache : column_cache_t) (op : operator_type) (left right : expr_node)
    (hl : calcExpression regex_match column_cache left = .ok ExprVal.null)
    (hr : OPER_UNARY op = false →
      ∃ rv, calcExpression regex_match column_cache right = .ok rv) :
    (op ≠ OPER_ISNULL →
      calcExpression regex_match column_cache (expr_node.node op left right)
        = .ok ExprVal.null) ∧
    (op = OPER_ISNULL →
      calcExpression regex_match column_cache (expr_node.node op left right)
        = .ok (ExprVal.bool true)) := by
  cases hop : OPER_UNARY op
  · obtain ⟨rv, hrv⟩ := hr hop
    rw [calcExpression_binary regex_match column_cache op left right _ rv hop hl hrv]
    constructor
    · intro hne
      cases rv <;> simp [calcOperator, hop, ExprVal.type, hne]
    · intro he
      subst he
      simp [OPER_UNARY] at hop
  · rw [calcExpression_unary regex_match column_cache op left right _ hop hl]
    constructor
    · intro hne
      simp [calcOperator, hop, hne]
    · intro he
      subst he
      simp [calcOperator, OPER_UNARY]

/-- Witness of C2: `Null + String("a")` is Null. -/
theorem calcExpression_left_null_witness :
    calcExpression regex_reject [] (expr_node.node OPER_ADD
        (expr_node.leaf term.TERM_NULL) (expr_node.leaf (term.TERM_STRING "a")))
      = .ok ExprVal.null :=
  (calcExpression_left_null regex_reject [] OPER_ADD (expr_node.leaf term.TERM_NULL)
    (expr_node.leaf (term.TERM_STRING "a")) rfl
    (fun _ => ⟨ExprVal.string "a", rfl⟩)).1 (by decide)

/-- C3, counterexample: `Int(1) + Null` is not the Null literal and evaluates
(to Null), yet `(Int(1) + Null) IS NULL` is Bool(true), not Bool(false). -/
theorem isnull_of_null_valued_node :
    expr_node.node OPER_ADD (expr_node.leaf (term.TERM_INT 1))
        (expr_node.leaf term.TERM_NULL) ≠ expr_node.leaf term.TERM_NULL ∧
    calcExpression regex_reject [] (expr_node.node OPER_ADD
        (expr_node.leaf (term.TERM_INT 1)) (expr_node.leaf term.TERM_NULL))
      = .ok ExprVal.null ∧
    calcExpression regex_reject [] (expr_node.node OPER_ISNULL
        (expr_node.node OPER_ADD (expr_node.leaf (term.TERM_INT 1))
          (expr_node.leaf term.TERM_NULL))
        (expr_node.leaf term.TERM_NULL))
      = .ok (ExprVal.bool true) ∧
    calcExpression regex_reject [] (expr_node.node OPER_ISNULL
        (expr_node.node OPER_ADD (expr_node.leaf (term.TERM_INT 1))
          (expr_node.leaf term.TERM_NULL))
        (expr_node.leaf term.TERM_NULL))
      ≠ .ok (ExprVal.bool false) := by
  refine ⟨(by intro h; cases h), rfl, rfl, ?_⟩
  intro h
  have h2 : Except.ok (ExprVal.bool true) = (Except.ok (ExprVal.bool false) : Except Abort ExprVal) :=
    h
  simp at h2

/-- C3, amended: for every expression `x` that evaluates to a value other than
Null, `x IS NULL` evaluates to Bool(false). -/
theorem isnull_of_non_null (regex_match : List Char → List Char → Option Bool)
    (column_cache : column_cache_t) (x right : expr_node) (v : ExprVal)
    (hx : calcExpression regex_match column_cache x = .ok v) (hv : v ≠ ExprVal.null) :
    calcExpression regex_match column_cache (expr_node.node OPER_ISNULL x right)
      = .ok (ExprVal.bool false) := by
  rw [calcExpression_unary regex_match column_cache OPER_ISNULL x right v rfl hx]
  cases v <;> simp [calcOperator, OPER_UNARY] at hv ⊢

/-- Witness of the amended C3: `Bool(true) IS NULL` is Bool(false). -/
theorem isnull_of_non_null_witness :
    calcExpression regex_reject [] (expr_node.node OPER_ISNULL
        (expr_node.leaf (term.TERM_BOOL true)) (expr_node.leaf term.TERM_NULL))
      = .ok (ExprVal.bool false) :=
  isnull_of_non_null regex_reject [] (expr_node.leaf (term.TERM_BOOL true))
    (expr_node.leaf term.TERM_NULL) (ExprVal.bool true) rfl (fun h => by cases h)

/-- C4: for every binary operator, when both operands evaluate to non-Null
values of different variants the node fails with DifferentOperandType. -/
theorem calcExpression_diff_type (regex_match : List Char → List Char → Option Bool)
    (column_cache : column_cache_t) (op : operator_type) (left right : expr_node)
    (lv rv : ExprVal) (hop : OPER_UNARY op = false)
    (hl : calcExpression regex_match column_cache left = .ok lv)
    (hr : calcExpression regex_match column_cache right = .ok rv)
    (hlv : lv.type ≠ TERM_NULL) (hrv : rv.type ≠ TERM_NULL) (hne : lv.type ≠ rv.type) :
    calcExpression regex_match column_cache (expr_node.node op left right)
      = .error (Abort.exception EXCEPTION_DIFF_TYPE) := by
  rw [calcExpression_binary regex_match column_cache op left right lv rv hop hl hr]
  simp [calcOperator, hop, hlv, hrv, hne]

/-- Witness of C4: `Bool(true) + Int(1)` fails with DifferentOperandType. -/
theorem calcExpression_diff_type_witness :
    calcExpression regex_reject [] (expr_node.node OPER_ADD
        (expr_node.leaf (term.TERM_BOOL true)) (expr_node.leaf (term.TERM_INT 1)))
      = .error (Abort.exception EXCEPTION_DIFF_TYPE) :=
  calcExpression_diff_type regex_reject [] OPER_ADD _ _ (ExprVal.bool true) (ExprVal.int 1)
    rfl rfl rfl (by decide) (by decide) (by decide)

/-! ## Column cache: comparison of concrete keys -/

/-- A strict comparison of two strings follows from that of their characters. -/
theorem string_lt_of_data {a b : String} (h : a.data < b.data) : a < b :=
  String.lt_iff_toList_lt.mpr h

/-- The negation of a strict comparison follows from that on the characters. -/
theorem string_not_lt_of_data {a b : String} (h : ¬ a.data < b.data) : ¬ a < b :=
  fun h2 => h (String.lt_iff_toList_lt.mp h2)

/-! ## Column cache: lookup failures -/

/-- C5, failing input: after `update_column_cache("id", "t1", Int 1)` and
`update_column_cache("name", "t3", String "x")` the cache has an entry for
column `id` and none for `id` under table `t3`, and the lookup of `t3.id`
returns the value stored under column `name`. -/
theorem term2val_qualified_miss_other_column :
    cache_of_inserts [("id", "t1", ExprVal.int 1), ("name", "t3", ExprVal.string "x")]
      = [("id", "t1", ExprVal.int 1), ("name", "t3", ExprVal.string "x")] ∧
    multimap_count "id" (cache_of_inserts
      [("id", "t1", ExprVal.int 1), ("name", "t3", ExprVal.string "x")]) = 1 ∧
    (∀ e ∈ cache_of_inserts
        [("id", "t1", ExprVal.int 1), ("name", "t3", ExprVal.string "x")],
      ¬ (e.1 = "id" ∧ e.2.1 = "t3")) ∧
    term2val (cache_of_inserts
        [("id", "t1", ExprVal.int 1), ("name", "t3", ExprVal.string "x")])
      (term.TERM_COLUMN ⟨some "t3", "id"⟩) = .ok (ExprVal.string "x") := by
  have h1 : ¬ "name" < "id" := string_not_lt_of_data (by decide)
  have h2 : ¬ "id" < "id" := string_not_lt_of_data (by decide)
  have hc : cache_of_inserts
      [("id", "t1", ExprVal.int 1), ("name", "t3", ExprVal.string "x")]
      = [("id", "t1", ExprVal.int 1), ("name", "t3", ExprVal.string "x")] := by
    simp [cache_of_inserts, update_column_cache, multimap_insert, h1]
  rw [hc]
  refine ⟨rfl, ?_, ?_, ?_⟩
  · simp [multimap_count]
  · intro e he
    simp at he
    rcases he with rfl | rfl <;> simp
  · simp [term2val, multimap_count, multimap_find, multimap_lower_bound, term2val_scan, h2]

/-- The two-table example: with `("id","t1",Int 1)` and `("id","t2",Int 2)`
cached, the unqualified lookup of `id` fails with ColumnNotUnique. -/
theorem term2val_two_tables_unqualified :
    term2val (cache_of_inserts [("id", "t1", ExprVal.int 1), ("id", "t2", ExprVal.int 2)])
      (term.TERM_COLUMN ⟨none, "id"⟩) = .error (Abort.exception EXCEPTION_COL_NOT_UNIQUE) := by
  have h2 : ¬ "id" < "id" := string_not_lt_of_data (by decide)
  simp [term2val, cache_of_inserts, update_column_cache, multimap_insert, multimap_count, h2]

/-- C6: in every cache, the lookup of a column reference fails with
ColumnNotUnique exactly when the reference has no table qualifier and the
cache holds more than one entry with its column name. -/
theorem term2val_not_unique_iff (column_cache : column_cache_t) (table : Option String)
    (column : String) :
    term2val column_cache (term.TERM_COLUMN ⟨table, column⟩)
        = .error (Abort.exception EXCEPTION_COL_NOT_UNIQUE)
      ↔ table = none ∧ 1 < multimap_count column column_cache := by
  simp only [term2val]
  by_cases h0 : multimap_count column column_cache = 0
  · simp [h0]
  · by_cases h1 : multimap_count column column_cache > 1 ∧ table = none
    · simp [h0, h1]
    · rw [if_neg h0, if_neg h1]
      constructor
      · intro h
        split at h <;> simp at h
      · intro h
        exact absurd ⟨h.2, h.1⟩ h1

/-- Entries removed by `clean_column_cache_by_table` are those of the table. -/
theorem clean_column_cache_by_table_eq_filter (table : String) (m : column_cache_t) :
    clean_column_cache_by_table table m = m.filter (fun e => decide (e.2.1 ≠ table)) := by
  induction m with
  | nil => rfl
  | cons it rest ih =>
    by_cases h : it.2.1 = table
    · simp [clean_column_cache_by_table, h, ih]
    · simp [clean_column_cache_by_table, h, ih]

/-- A column with no entry in the cache is unknown, qualified or not. -/
theorem term2val_count_zero (column_cache : column_cache_t) (table : Option String)
    (column : String) (h : multimap_count column column_cache = 0) :
    term2val column_cache (term.TERM_COLUMN ⟨table, column⟩)
      = .error (Abort.exception EXCEPTION_UNKOWN_COLUMN) := by
  simp [term2val, h]

/-- C8: if every cached entry of column `C` belongs to table `T`, then after
`clean_column_cache_by_table(T)` every lookup of `C`, unqualified or qualified
by any table, fails with UnknownColumn; after `clean_column_cache()` every
lookup of every column fails with UnknownColumn. -/
theorem term2val_after_clean (column_cache : column_cache_t) (T C : String)
    (h : ∀ e ∈ column_cache, e.1 = C → e.2.1 = T) :
    (∀ q : Option String,
      term2val (clean_column_cache_by_table T column_cache) (term.TERM_COLUMN ⟨q, C⟩)
        = .error (Abort.exception EXCEPTION_UNKOWN_COLUMN)) ∧
    (∀ (q : Option String) (c : String),
      term2val (clean_column_cache column_cache) (term.TERM_COLUMN ⟨q, c⟩)
        = .error (Abort.exception EXCEPTION_UNKOWN_COLUMN)) := by
  constructor
  · intro q
    apply term2val_count_zero
    rw [clean_column_cache_by_table_eq_filter]
    simp only [multimap_count, List.countP_eq_zero, List.mem_filter]
    rintro e ⟨he, hne⟩ hk
    simp at hne hk
    exact hne (h e he hk)
  · intro q c
    apply term2val_count_zero
    simp [clean_column_cache, multimap_count]

/-- Witness of C8: column `id` cached only under `t1`, then `t1` is cleared. -/
theorem term2val_after_clean_witness :
    term2val (clean_column_cache_by_table "t1"
        [("id", "t1", ExprVal.int 1), ("name", "t3", ExprVal.string "x")])
      (term.TERM_COLUMN ⟨some "t3", "id"⟩)
      = .error (Abort.exception EXCEPTION_UNKOWN_COLUMN) :=
  (term2val_after_clean [("id", "t1", ExprVal.int 1), ("name", "t3", ExprVal.string "x")]
    "t1" "id" (by
      intro e he
      simp at he
      rcases he with rfl | rfl <;> simp)).1 (some "t3")

/-- C9: the cache after `clean_column_cache_by_table(T)` is the previous cache
with the entries of table `T` left out: the same entries, unchanged and in the
same order, and an entry is kept exactly when its table differs from `T`. -/
theorem clean_column_cache_by_table_frame (T : String) (column_cache : column_cache_t) :
    clean_column_cache_by_table T column_cache
        = column_cache.filter (fun e => decide (e.2.1 ≠ T)) ∧
    (clean_column_cache_by_table T column_cache).Sublist column_cache ∧
    (∀ e, e ∈ clean_column_cache_by_table T column_cache ↔ e ∈ column_cache ∧ e.2.1 ≠ T) := by
  refine ⟨clean_column_cache_by_table_eq_filter T column_cache, ?_, ?_⟩
  · rw [clean_column_cache_by_table_eq_filter]
    exact List.filter_sublist _
  · intro e
    rw [clean_column_cache_by_table_eq_filter]
    simp [List.mem_filter]

/-! ## Column cache: order invariant and insertion order -/

/-- Insertion adds the entry and keeps the others. -/
theorem multimap_insert_mem (e y : String × table_value_t) (m : column_cache_t) :
    y ∈ multimap_insert e m ↔ y = e ∨ y ∈ m := by
  induction m with
  | nil => simp [multimap_insert]
  | cons x xs ih =>
    by_cases h : e.1 < x.1
    · simp [multimap_insert, h]
    · simp [multimap_insert, h, ih]
      tauto

/-- Insertion keeps the keys in ascending order. -/
theorem multimap_insert_sorted (e : String × table_value_t) (m : column_cache_t)
    (h : cache_sorted m) : cache_sorted (multimap_insert e m) := by
  induction m with
  | nil => simp [multimap_insert, cache_sorted]
  | cons x xs ih =>
    have hx := List.pairwise_cons.mp h
    by_cases hlt : e.1 < x.1
    · simp only [multimap_insert, hlt, if_true]
      refine List.pairwise_cons.mpr ⟨?_, h⟩
      intro y hy
      rcases List.mem_cons.mp hy with rfl | hy
      · exact lt_asymm hlt
      · exact fun hy2 => hx.1 y hy (lt_trans hy2 hlt)
    · simp only [multimap_insert, hlt, if_false]
      refine List.pairwise_cons.mpr ⟨?_, ih hx.2⟩
      intro y hy
      rcases (multimap_insert_mem e y xs).mp hy with rfl | hy
      · exact hlt
      · exact hx.1 y hy

/-- The erase loop keeps the keys in ascending order. -/
theorem clean_column_cache_by_table_sorted (table : String) (m : column_cache_t)
    (h : cache_sorted m) : cache_sorted (clean_column_cache_by_table table m) := by
  rw [clean_column_cache_by_table_eq_filter]
  exact List.Pairwise.sublist (List.filter_sublist _) h

/-- Among the entries of one key, insertion appends: a new entry comes after
the entries already stored under its key, and entries of other keys keep
their order. -/
theorem multimap_insert_filter_key (e : String × table_value_t) (m : column_cache_t)
    (k : String) (h : cache_sorted m) :
    (multimap_insert e m).filter (fun x => decide (x.1 = k))
      = m.filter (fun x => decide (x.1 = k)) ++ (if e.1 = k then [e] else []) := by
  induction m with
  | nil => by_cases hk : e.1 = k <;> simp [multimap_insert, hk]
  | cons x xs ih =>
    have hx := List.pairwise_cons.mp h
    by_cases hlt : e.1 < x.1
    · have hins : multimap_insert e (x :: xs) = e :: x :: xs := by
        simp [multimap_insert, hlt]
      rw [hins]
      by_cases hk : e.1 = k
      · have hnil : (x :: xs).filter (fun y => decide (y.1 = k)) = [] := by
          rw [List.filter_eq_nil_iff]
          intro y hy
          have hky : k < y.1 := by
            rcases List.mem_cons.mp hy with rfl | hy
            · exact hk ▸ hlt
            · exact hk ▸ lt_of_lt_of_le hlt (not_lt.mp (hx.1 y hy))
          simpa using (ne_of_gt hky)
        rw [List.filter_cons_of_pos (by simpa using hk), hnil]
        simp [hk]
      · rw [List.filter_cons_of_neg (by simpa using hk)]
        simp [hk]
    · have hins : multimap_insert e (x :: xs) = x :: multimap_insert e xs := by
        simp [multimap_insert, hlt]
      rw [hins]
      by_cases hxk : x.1 = k
      · rw [List.filter_cons_of_pos (by simpa using hxk),
          List.filter_cons_of_pos (by simpa using hxk), ih hx.2]
        simp
      · rw [List.filter_cons_of_neg (by simpa using hxk),
          List.filter_cons_of_neg (by simpa using hxk), ih hx.2]

/-- Inserting a sequence of entries into a sorted cache keeps it sorted and
appends, under each key, the entries of that key in call order. -/
theorem foldl_insert_spec (calls : List (String × String × ExprVal)) (k : String) :
    ∀ m : column_cache_t, cache_sorted m →
      cache_sorted (calls.foldl (fun m c => update_column_cache c.1 c.2.1 c.2.2 m) m) ∧
      (calls.foldl (fun m c => update_column_cache c.1 c.2.1 c.2.2 m) m).filter
          (fun x => decide (x.1 = k))
        = m.filter (fun x => decide (x.1 = k)) ++ calls.filter (fun x => decide (x.1 = k)) := by
  induction calls with
  | nil => intro m h; simp [h]
  | cons c cs ih =>
    intro m h
    have hs : cache_sorted (update_column_cache c.1 c.2.1 c.2.2 m) :=
      multimap_insert_sorted _ m h
    have hf := multimap_insert_filter_key c m k h
    obtain ⟨h1, h2⟩ := ih _ hs
    refine ⟨h1, ?_⟩
    rw [List.foldl_cons, h2]
    show (multimap_insert c m).filter _ ++ _ = _
    rw [hf]
    by_cases hk : c.1 = k
    · simp [hk]
    · simp [hk]

/-- A cache built by insertions is sorted. -/
theorem cache_of_inserts_sorted (calls : List (String × String × ExprVal)) :
    cache_sorted (cache_of_inserts calls) :=
  (foldl_insert_spec calls "" [] List.Pairwise.nil).1

/-- Under each key, a cache built by insertions lists the calls for that key
in call order. -/
theorem cache_of_inserts_filter_key (calls : List (String × String × ExprVal)) (k : String) :
    (cache_of_inserts calls).filter (fun x => decide (x.1 = k))
      = calls.filter (fun x => decide (x.1 = k)) := by
  have h := (foldl_insert_spec calls k [] List.Pairwise.nil).2
  simpa [cache_of_inserts] using h

/-! ## Column cache: successful lookups -/

/-- On a sorted cache `multimap::find` reaches the first entry of the key. -/
theorem multimap_find_head (k : String) (m : column_cache_t) (h : cache_sorted m) :
    (multimap_find k m).head? = m.find? (fun x => decide (x.1 = k)) := by
  induction m with
  | nil => rfl
  | cons x xs ih =>
    have hx := List.pairwise_cons.mp h
    by_cases hlt : x.1 < k
    · have hne : ¬ x.1 = k := ne_of_lt hlt
      have hstep : multimap_find k (x :: xs) = multimap_find k xs := by
        simp [multimap_find, multimap_lower_bound, hlt]
      rw [hstep, ih hx.2]
      simp [List.find?_cons, hne]
    · by_cases hgt : k < x.1
      · have hfind : multimap_find k (x :: xs) = [] := by
          simp [multimap_find, multimap_lower_bound, hlt, hgt]
        rw [hfind]
        symm
        rw [List.head?_nil, List.find?_eq_none]
        intro y hy
        have hky : k < y.1 := by
          rcases List.mem_cons.mp hy with rfl | hy
          · exact hgt
          · exact lt_of_lt_of_le hgt (not_lt.mp (hx.1 y hy))
        simpa using (ne_of_gt hky)
      · have hxk : x.1 = k := le_antisymm (not_lt.mp hgt) (not_lt.mp hlt)
        have hfind : multimap_find k (x :: xs) = x :: xs := by
          simp [multimap_find, multimap_lower_bound, hlt, hgt]
        rw [hfind]
        simp [List.find?_cons, hxk]

/-- An unqualified scan stops at the entry it starts from. -/
theorem term2val_scan_none (m : column_cache_t) :
    term2val_scan none m = m.head?.map (fun x => x.2.2) := by
  cases m <;> simp [term2val_scan]

/-- A qualified scan over a sorted run of keys not below `k` that holds an
entry of column `k` and table `t` stops at the first such entry. -/
theorem term2val_scan_run (t k : String) (m : column_cache_t) (hs : cache_sorted m)
    (hge : ∀ y ∈ m, ¬ y.1 < k) (hex : ∃ e ∈ m, e.1 = k ∧ e.2.1 = t) :
    term2val_scan (some t) m
      = (m.find? (fun x => decide (x.1 = k ∧ x.2.1 = t))).map (fun x => x.2.2) := by
  induction m with
  | nil => obtain ⟨e, he, _⟩ := hex; cases he
  | cons x xs ih =>
    have hx := List.pairwise_cons.mp hs
    obtain ⟨e, he, hek, het⟩ := hex
    have hxk : x.1 = k := by
      apply le_antisymm _ (not_lt.mp (hge x (List.mem_cons_self _ _)))
      rcases List.mem_cons.mp he with rfl | he
      · exact le_of_eq hek
      · exact hek ▸ not_lt.mp (hx.1 e he)
    by_cases hxt : x.2.1 = t
    · simp [term2val_scan, List.find?_cons, hxk, hxt]
    · have hin : e ∈ xs := by
        rcases List.mem_cons.mp he with rfl | he
        · exact absurd het hxt
        · exact he
      have hrec := ih hx.2 (fun y hy => hge y (List.mem_cons_of_mem _ hy)) ⟨e, hin, hek, het⟩
      simp [term2val_scan, List.find?_cons, hxt, hrec]

/-- A qualified scan from `multimap::find` on a sorted cache that holds an
entry of column `k` and table `t` stops at the first such entry of the cache. -/
theorem term2val_scan_find (t k : String) (m : column_cache_t) (hs : cache_sorted m)
    (hex : ∃ e ∈ m, e.1 = k ∧ e.2.1 = t) :
    term2val_scan (some t) (multimap_find k m)
      = (m.find? (fun x => decide (x.1 = k ∧ x.2.1 = t))).map (fun x => x.2.2) := by
  induction m with
  | nil => obtain ⟨e, he, _⟩ := hex; cases he
  | cons x xs ih =>
    have hx := List.pairwise_cons.mp hs
    by_cases hlt : x.1 < k
    · have hne : ¬ x.1 = k := ne_of_lt hlt
      have hstep : multimap_find k (x :: xs) = multimap_find k xs := by
        simp [multimap_find, multimap_lower_bound, hlt]
      obtain ⟨e, he, hek, het⟩ := hex
      have hin : e ∈ xs := by
        rcases List.mem_cons.mp he with rfl | he
        · exact absurd hek hne
        · exact he
      rw [hstep, ih hx.2 ⟨e, hin, hek, het⟩]
      simp [List.find?_cons, hne]
    · have hge : ∀ y ∈ x :: xs, ¬ y.1 < k := by
        intro y hy
        rcases List.mem_cons.mp hy with rfl | hy
        · exact hlt
        · exact fun hyk => hlt (lt_of_le_of_lt (not_lt.mp (hx.1 y hy)) hyk)
      have hgt : ¬ k < x.1 := by
        obtain ⟨e, he, hek, _⟩ := hex
        rcases List.mem_cons.mp he with rfl | he
        · exact hek ▸ lt_irrefl _
        · exact hek ▸ hx.1 e he
      have hfind : multimap_find k (x :: xs) = x :: xs := by
        simp [multimap_find, multimap_lower_bound, hlt, hgt]
      rw [hfind]
      exact term2val_scan_run t k (x :: xs) hs hge hex

/-- C7: in a cache built by a sequence of `update_column_cache` calls, (a) the
lookup of `C` qualified by `T` returns the value of the earliest call with
column `C` and table `T`, when there is one; (b) the unqualified lookup of `C`
returns the value of the only call with column `C`, when there is exactly
one. -/
theorem term2val_first_match (calls : List (String × String × ExprVal)) (C : String) :
    (∀ (T : String) (e : String × String × ExprVal),
      calls.find? (fun c => decide (c.1 = C ∧ c.2.1 = T)) = some e →
      term2val (cache_of_inserts calls) (term.TERM_COLUMN ⟨some T, C⟩) = .ok e.2.2) ∧
    (∀ e : String × String × ExprVal,
      calls.filter (fun c => decide (c.1 = C)) = [e] →
      term2val (cache_of_inserts calls) (term.TERM_COLUMN ⟨none, C⟩) = .ok e.2.2) := by
  have hs := cache_of_inserts_sorted calls
  have hf := cache_of_inserts_filter_key calls C
  have hcnt : multimap_count C (cache_of_inserts calls)
      = (calls.filter (fun c => decide (c.1 = C))).length := by
    rw [multimap_count, List.countP_eq_length_filter, hf]
  constructor
  · intro T e hfind
    have hmem : e ∈ calls := List.mem_of_find?_eq_some hfind
    have hp : e.1 = C ∧ e.2.1 = T := by simpa using List.find?_some hfind
    have hmemf : e ∈ calls.filter (fun c => decide (c.1 = C)) :=
      List.mem_filter.mpr ⟨hmem, by simpa using hp.1⟩
    have hin : e ∈ cache_of_inserts calls := by
      rw [← hf] at hmemf
      exact (List.mem_filter.mp hmemf).1
    have hpos : multimap_count C (cache_of_inserts calls) ≠ 0 := by
      rw [hcnt]
      exact Nat.ne_of_gt (List.length_pos_of_mem hmemf)
    have hscan := term2val_scan_find T C (cache_of_inserts calls) hs ⟨e, hin, hp.1, hp.2⟩
    have hsame : (cache_of_inserts calls).find? (fun x => decide (x.1 = C ∧ x.2.1 = T))
        = calls.find? (fun c => decide (c.1 = C ∧ c.2.1 = T)) := by
      have h1 := List.find?_filter (cache_of_inserts calls) (fun x => decide (x.1 = C))
        (fun x => decide (x.2.1 = T))
      have h2 := List.find?_filter calls (fun x => decide (x.1 = C))
        (fun x => decide (x.2.1 = T))
      rw [hf] at h1
      simp only [decide_eq_true_eq] at h1 h2
      rw [← h1, h2]
    rw [hsame, hfind] at hscan
    simp only [term2val, hpos, if_false]
    rw [if_neg (by simp), hscan]
    rfl
  · intro e hone
    have hone2 : multimap_count C (cache_of_inserts calls) = 1 := by
      rw [hcnt, hone]; rfl
    have hhead := multimap_find_head C (cache_of_inserts calls) hs
    have hfirst : (cache_of_inserts calls).find? (fun x => decide (x.1 = C)) = some e := by
      have h1 := List.find?_filter (cache_of_inserts calls) (fun x => decide (x.1 = C))
        (fun x => decide (x.1 = C))
      rw [hf, hone] at h1
      have he : e.1 = C := by
        have : e ∈ calls.filter (fun c => decide (c.1 = C)) := by rw [hone]; simp
        simpa using (List.mem_filter.mp this).2
      simp only [decide_eq_true_eq, and_self] at h1
      rw [← h1]
      simp [List.find?_cons, he]
    simp only [term2val, hone2]
    rw [if_neg (by decide), if_neg (by simp), term2val_scan_none, hhead, hfirst]
    rfl

/-- Witness of C7: in the two-table example `t1.id` is Int(1), also after a
later duplicate insert of `("id","t1")`, and `name`, cached once, is found
without a qualifier. -/
theorem term2val_first_match_witness :
    term2val (cache_of_inserts [("id", "t1", ExprVal.int 1), ("id", "t2", ExprVal.int 2),
        ("name", "t3", ExprVal.string "x"), ("id", "t1", ExprVal.int 7)])
      (term.TERM_COLUMN ⟨some "t1", "id"⟩) = .ok (ExprVal.int 1) ∧
    term2val (cache_of_inserts [("id", "t1", ExprVal.int 1), ("id", "t2", ExprVal.int 2),
        ("name", "t3", ExprVal.string "x"), ("id", "t1", ExprVal.int 7)])
      (term.TERM_COLUMN ⟨some "t2", "id"⟩) = .ok (ExprVal.int 2) ∧
    term2val (cache_of_inserts [("id", "t1", ExprVal.int 1), ("id", "t2", ExprVal.int 2),
        ("name", "t3", ExprVal.string "x"), ("id", "t1", ExprVal.int 7)])
      (term.TERM_COLUMN ⟨none, "name"⟩) = .ok (ExprVal.string "x") :=
  ⟨(term2val_first_match _ "id").1 "t1" ("id", "t1", ExprVal.int 1) rfl,
   (term2val_first_match _ "id").1 "t2" ("id", "t2", ExprVal.int 2) rfl,
   (term2val_first_match _ "name").2 ("name", "t3", ExprVal.string "x") rfl⟩

/-! ## String equality -/

/-- Characters with the same code are equal. -/
theorem char_eq_of_toNat_eq (a b : Char) (h : a.toNat = b.toNat) : a = b := by
  have h2 := congrArg Char.ofNat h
  simpa using h2

/-- The function `tolower` sends no character other than the terminator to the
terminator. -/
theorem toLower_toNat_ne_zero (c : Char) (h : c ≠ Char.ofNat 0) : c.toLower.toNat ≠ 0 := by
  intro h0
  have h1 : c.toLower = Char.ofNat 0 := char_eq_of_toNat_eq _ _ h0
  unfold Char.toLower at h1
  simp only at h1
  split at h1
  · rename_i hr
    have h2 : c.toNat + 32 = 0 := by
      have h3 := congrArg Char.toNat h1
      generalize c.toNat = n at hr h3 ⊢
      obtain ⟨hlo, hhi⟩ := hr
      interval_cases n <;> revert h3 <;> decide
    omega
  · exact h h1

/-- On C strings (no terminator inside), `strcasecmp` returns 0 exactly when
the two strings agree after `tolower` on every character. -/
theorem strcasecmp_eq_zero_iff (s : List Char) :
    ∀ t : List Char, Char.ofNat 0 ∉ s → Char.ofNat 0 ∉ t →
      (strcasecmp s t = 0 ↔ s.map Char.toLower = t.map Char.toLower) := by
  induction s with
  | nil =>
    intro t _ ht
    cases t with
    | nil => simp [strcasecmp]
    | cons c2 s2 =>
      have hc : c2 ≠ Char.ofNat 0 := fun h => ht (h ▸ List.mem_cons_self _ _)
      have hn := toLower_toNat_ne_zero c2 hc
      simp only [strcasecmp, List.map_nil, List.map_cons]
      constructor
      · intro h; omega
      · intro h; cases h
  | cons c1 s1 ih =>
    intro t hs ht
    have hc1 : c1 ≠ Char.ofNat 0 := fun h => hs (h ▸ List.mem_cons_self _ _)
    have hs1 : Char.ofNat 0 ∉ s1 := fun h => hs (List.mem_cons_of_mem _ h)
    cases t with
    | nil =>
      have hn := toLower_toNat_ne_zero c1 hc1
      simp only [strcasecmp, List.map_nil, List.map_cons]
      constructor
      · intro h; omega
      · intro h; cases h
    | cons c2 s2 =>
      have hs2 : Char.ofNat 0 ∉ s2 := fun h => ht (List.mem_cons_of_mem _ h)
      by_cases heq : c1.toLower = c2.toLower
      · simp only [strcasecmp, heq, if_true, List.map_cons, List.cons.injEq, true_and]
        exact ih s2 hs1 hs2
      · simp only [strcasecmp, heq, if_false, List.map_cons, List.cons.injEq, false_and,
          iff_false]
        intro h
        exact heq (char_eq_of_toNat_eq _ _ (by omega))

/-- C10: for all C strings `s` and `t`, `String(s) = String(t)` is Bool(true)
exactly when `s` and `t` agree after ASCII case folding (`tolower` on every
character) and Bool(false) otherwise, and `String(s) <> String(t)` is the
negation of that Boolean. -/
theorem calcExpression_string_equ (regex_match : List Char → List Char → Option Bool)
    (column_cache : column_cache_t) (s t : String)
    (hs : Char.ofNat 0 ∉ s.data) (ht : Char.ofNat 0 ∉ t.data) :
    calcExpression regex_match column_cache (expr_node.node OPER_EQU
        (expr_node.leaf (term.TERM_STRING s)) (expr_node.leaf (term.TERM_STRING t)))
      = .ok (ExprVal.bool (decide (s.data.map Char.toLower = t.data.map Char.toLower))) ∧
    calcExpression regex_match column_cache (expr_node.node OPER_NEQ
        (expr_node.leaf (term.TERM_STRING s)) (expr_node.leaf (term.TERM_STRING t)))
      = .ok (ExprVal.bool (!decide (s.data.map Char.toLower = t.data.map Char.toLower))) := by
  have h := strcasecmp_eq_zero_iff s.data t.data hs ht
  constructor
  · rw [calcExpression_binary regex_match column_cache OPER_EQU
      (expr_node.leaf (term.TERM_STRING s)) (expr_node.leaf (term.TERM_STRING t))
      (ExprVal.string s) (ExprVal.string t) rfl rfl rfl]
    simp [calcOperator, OPER_UNARY, ExprVal.type, ExprVal.value_s, h]
  · rw [calcExpression_binary regex_match column_cache OPER_NEQ
      (expr_node.leaf (term.TERM_STRING s)) (expr_node.leaf (term.TERM_STRING t))
      (ExprVal.string s) (ExprVal.string t) rfl rfl rfl]
    simp [calcOperator, OPER_UNARY, ExprVal.type, ExprVal.value_s, h]

/-- Witness of C10: `String("Foo") = String("foo")` is Bool(true) and
`String("Foo") <> String("foo")` is Bool(false). -/
theorem calcExpression_string_equ_witness :
    calcExpression regex_reject [] (expr_node.node OPER_EQU
        (expr_node.leaf (term.TERM_STRING "Foo")) (expr_node.leaf (term.TERM_STRING "foo")))
      = .ok (ExprVal.bool true) ∧
    calcExpression regex_reject [] (expr_node.node OPER_NEQ
        (expr_node.leaf (term.TERM_STRING "Foo")) (expr_node.leaf (term.TERM_STRING "foo")))
      = .ok (ExprVal.bool false) :=
  calcExpression_string_equ regex_reject [] "Foo" "foo" (by decide) (by decide)

/-! ## Integer operators -/

/-- Wrapping leaves a value of the range of `value_i` unchanged. -/
theorem int_wrap_of_in_range (x : Int) (h : int_in_range x) : int_wrap x = x := by
  unfold int_in_range INT_BITS at h
  unfold int_wrap INT_BITS
  obtain ⟨h1, h2⟩ := h
  norm_num at h1 h2 ⊢
  rw [Int.emod_eq_of_lt (by omega) (by omega)]
  omega

/-- Wrapping gives the value of the range of `value_i` that agrees with `x`
modulo `2^INT_BITS`. -/
theorem int_wrap_spec (x : Int) :
    int_in_range (int_wrap x) ∧ (int_wrap x - x) % 2 ^ INT_BITS = 0 := by
  unfold int_in_range int_wrap INT_BITS
  norm_num
  omega

/-- A binary operator on two integer literals applies to the two integers. -/
theorem calcExpression_int_int (regex_match : List Char → List Char → Option Bool)
    (column_cache : column_cache_t) (op : operator_type) (a b : Int)
    (hop : OPER_UNARY op = false) :
    calcExpression regex_match column_cache (expr_node.node op
        (expr_node.leaf (term.TERM_INT a)) (expr_node.leaf (term.TERM_INT b)))
      = calcOperator regex_match op (ExprVal.int a) (ExprVal.int b) :=
  calcExpression_binary regex_match column_cache op _ _ (ExprVal.int a) (ExprVal.int b)
    hop rfl rfl

/-- C11: on integer operands `a` and `b`, `+`, `-` and `*` return the sum, the
difference and the product when these lie in the range of `value_i`, `/` with
`b ≠ 0` returns the quotient truncated toward zero, unary negate returns `-a`,
and `= > >= < <= <>` return the Boolean of the integer comparison. -/
theorem calcExpression_int_ops (regex_match : List Char → List Char → Option Bool)
    (column_cache : column_cache_t) (a b : Int) (right : expr_node) :
    (int_in_range (a + b) →
      calcExpression regex_match column_cache (expr_node.node OPER_ADD
          (expr_node.leaf (term.TERM_INT a)) (expr_node.leaf (term.TERM_INT b)))
        = .ok (ExprVal.int (a + b))) ∧
    (int_in_range (a - b) →
      calcExpression regex_match column_cache (expr_node.node OPER_DEC
          (expr_node.leaf (term.TERM_INT a)) (expr_node.leaf (term.TERM_INT b)))
        = .ok (ExprVal.int (a - b))) ∧
    (int_in_range (a * b) →
      calcExpression regex_match column_cache (expr_node.node OPER_MUL
          (expr_node.leaf (term.TERM_INT a)) (expr_node.leaf (term.TERM_INT b)))
        = .ok (ExprVal.int (a * b))) ∧
    (b ≠ 0 → int_in_range (Int.tdiv a b) →
      calcExpression regex_match column_cache (expr_node.node OPER_DIV
          (expr_node.leaf (term.TERM_INT a)) (expr_node.leaf (term.TERM_INT b)))
        = .ok (ExprVal.int (Int.tdiv a b))) ∧
    (int_in_range (-a) →
      calcExpression regex_match column_cache (expr_node.node OPER_NEG
          (expr_node.leaf (term.TERM_INT a)) right)
        = .ok (ExprVal.int (-a))) ∧
    calcExpression regex_match column_cache (expr_node.node OPER_EQU
        (expr_node.leaf (term.TERM_INT a)) (expr_node.leaf (term.TERM_INT b)))
      = .ok (ExprVal.bool (decide (a = b))) ∧
    calcExpression regex_match column_cache (expr_node.node OPER_GT
        (expr_node.leaf (term.TERM_INT a)) (expr_node.leaf (term.TERM_INT b)))
      = .ok (ExprVal.bool (decide (a > b))) ∧
    calcExpression regex_match column_cache (expr_node.node OPER_GE
        (expr_node.leaf (term.TERM_INT a)) (expr_node.leaf (term.TERM_INT b)))
      = .ok (ExprVal.bool (decide (a ≥ b))) ∧
    calcExpression regex_match column_cache (expr_node.node OPER_LT
        (expr_node.leaf (term.TERM_INT a)) (expr_node.leaf (term.TERM_INT b)))
      = .ok (ExprVal.bool (decide (a < b))) ∧
    calcExpression regex_match column_cache (expr_node.node OPER_LE
        (expr_node.leaf (term.TERM_INT a)) (expr_node.leaf (term.TERM_INT b)))
      = .ok (ExprVal.bool (decide (a ≤ b))) ∧
    calcExpression regex_match column_cache (expr_node.node OPER_NEQ
        (expr_node.leaf (term.TERM_INT a)) (expr_node.leaf (term.TERM_INT b)))
      = .ok (ExprVal.bool (decide (a ≠ b))) := by
  refine ⟨?_, ?_, ?_, ?_, ?_, ?_, ?_, ?_, ?_, ?_, ?_⟩
  · intro h
    rw [calcExpression_int_int regex_match column_cache OPER_ADD a b rfl]
    simp [calcOperator, OPER_UNARY, ExprVal.type, ExprVal.value_i, int_wrap_of_in_range _ h]
  · intro h
    rw [calcExpression_int_int regex_match column_cache OPER_DEC a b rfl]
    simp [calcOperator, OPER_UNARY, ExprVal.type, ExprVal.value_i, int_wrap_of_in_range _ h]
  · intro h
    rw [calcExpression_int_int regex_match column_cache OPER_MUL a b rfl]
    simp [calcOperator, OPER_UNARY, ExprVal.type, ExprVal.value_i, int_wrap_of_in_range _ h]
  · intro hb h
    rw [calcExpression_int_int regex_match column_cache OPER_DIV a b rfl]
    have hno : ¬ (a = -(2 ^ (INT_BITS - 1)) ∧ b = -1) := by
      rintro ⟨ha, hb1⟩
      subst ha hb1
      revert h
      unfold int_in_range INT_BITS
      decide
    simp [calcOperator, OPER_UNARY, ExprVal.type, ExprVal.value_i, hb, hno,
      int_wrap_of_in_range _ h]
  · intro h
    rw [calcExpression_unary regex_match column_cache OPER_NEG
      (expr_node.leaf (term.TERM_INT a)) right (ExprVal.int a) rfl rfl]
    simp [calcOperator, OPER_UNARY, int_wrap_of_in_range _ h]
  all_goals
    first
    | rw [calcExpression_int_int regex_match column_cache OPER_EQU a b rfl]
    | rw [calcExpression_int_int regex_match column_cache OPER_GT a b rfl]
    | rw [calcExpression_int_int regex_match column_cache OPER_GE a b rfl]
    | rw [calcExpression_int_int regex_match column_cache OPER_LT a b rfl]
    | rw [calcExpression_int_int regex_match column_cache OPER_LE a b rfl]
    | rw [calcExpression_int_int regex_match column_cache OPER_NEQ a b rfl]
  all_goals simp [calcOperator, OPER_UNARY, ExprVal.type, ExprVal.value_i]

/-- Witness of C11: `Int(3) + Int(4)` is `Int(7)` and `Int(-7) / Int(2)` is
`Int(-3)`. -/
theorem calcExpression_int_ops_witness :
    calcExpression regex_reject [] (expr_node.node OPER_ADD
        (expr_node.leaf (term.TERM_INT 3)) (expr_node.leaf (term.TERM_INT 4)))
      = .ok (ExprVal.int 7) ∧
    calcExpression regex_reject [] (expr_node.node OPER_DIV
        (expr_node.leaf (term.TERM_INT (-7))) (expr_node.leaf (term.TERM_INT 2)))
      = .ok (ExprVal.int (-3)) :=
  ⟨(calcExpression_int_ops regex_reject [] 3 4 (expr_node.leaf term.TERM_NULL)).1
      (by unfold int_in_range INT_BITS; decide),
   (calcExpression_int_ops regex_reject [] (-7) 2 (expr_node.leaf term.TERM_NULL)).2.2.2.1
      (by decide) (by unfold int_in_range INT_BITS; decide)⟩

/-! ## Operator tables -/

/-- The outcome of `/` on two Ints: the division traps on a zero divisor and
on the least integer divided by -1, and gives the quotient otherwise. -/
theorem calcOperator_int_div (regex_match : List Char → List Char → Option Bool)
    (a b : Int) :
    calcOperator regex_match OPER_DIV (ExprVal.int a) (ExprVal.int b)
      = if b = 0 ∨ (a = -(2 ^ (INT_BITS - 1)) ∧ b = -1) then .error Abort.fault
        else .ok (ExprVal.int (int_wrap (Int.tdiv a b))) := by
  by_cases hb : b = 0
  · simp [calcOperator, OPER_UNARY, ExprVal.type, ExprVal.value_i, hb]
  · by_cases hm : a = -(2 ^ (INT_BITS - 1)) ∧ b = -1
    · simp [calcOperator, OPER_UNARY, ExprVal.type, ExprVal.value_i, hb, hm]
    · simp only [calcOperator, OPER_UNARY, ExprVal.type, ExprVal.value_i]
      simp [hb, hm]

/-- The outcome of `LIKE` on two Strings: the Bool of the match when the
engine returns one, `std::regex_error` when the constructor throws. -/
theorem calcOperator_string_like (regex_match : List Char → List Char → Option Bool)
    (a b : String) :
    calcOperator regex_match OPER_LIKE (ExprVal.string a) (ExprVal.string b)
      = match regex_match a.data (strlike_loop b.data strlike_status.A []) with
        | some r => .ok (ExprVal.bool r)
        | none => .error Abort.regex_error := by
  cases h : regex_match a.data (strlike_loop b.data strlike_status.A []) <;>
    simp [calcOperator, OPER_UNARY, ExprVal.type, ExprVal.value_s, strlike, h]

/-- C16, counterexample: `Int(1) / Int(0)` has both operands of variant Int and
an operator of the Int table, yet it neither fails with IllegalOperator nor
returns a value: it ends in the division fault. -/
theorem calcExpression_div_zero_no_value :
    OPER_DIV ∈ operator_table TERM_INT ∧
    calcExpression regex_reject [] (expr_node.leaf (term.TERM_INT 1))
      = .ok (ExprVal.int 1) ∧
    calcExpression regex_reject [] (expr_node.leaf (term.TERM_INT 0))
      = .ok (ExprVal.int 0) ∧
    calcExpression regex_reject [] (expr_node.node OPER_DIV
        (expr_node.leaf (term.TERM_INT 1)) (expr_node.leaf (term.TERM_INT 0)))
      = .error Abort.fault ∧
    ¬ (∃ v, calcExpression regex_reject [] (expr_node.node OPER_DIV
        (expr_node.leaf (term.TERM_INT 1)) (expr_node.leaf (term.TERM_INT 0)))
      = .ok v) := by
  refine ⟨by decide, rfl, rfl, rfl, ?_⟩
  rintro ⟨v, hv⟩
  have h : (Except.error Abort.fault : Except Abort ExprVal) = .ok v := hv
  cases h

/-- C16, amended: when the left operand evaluates to a non-Null value and, for
a binary operator, the right operand evaluates to a value of the same variant,
the node fails with IllegalOperator exactly when the operator is outside the
table of that variant; it ends in the division fault exactly when it is `/` on
Ints with a zero divisor or with the least integer divided by -1; it ends in
`std::regex_error` exactly when it is `LIKE` on Strings and the regex
constructor rejects the translated pattern; and it returns a value exactly in
the remaining cases. -/
theorem calcExpression_operator_table (regex_match : List Char → List Char → Option Bool)
    (column_cache : column_cache_t) (op : operator_type) (left right : expr_node)
    (lv rv : ExprVal)
    (hl : calcExpression regex_match column_cache left = .ok lv)
    (hlv : lv.type ≠ TERM_NULL)
    (hr : OPER_UNARY op = false →
      calcExpression regex_match column_cache right = .ok rv ∧ rv.type = lv.type) :
    (calcExpression regex_match column_cache (expr_node.node op left right)
        = .error (Abort.exception EXCEPTION_ILLEGAL_OP)
      ↔ op ∉ operator_table lv.type) ∧
    (calcExpression regex_match column_cache (expr_node.node op left right)
        = .error Abort.fault
      ↔ op = OPER_DIV ∧ lv.type = TERM_INT ∧
          (rv.value_i = 0 ∨ (lv.value_i = -(2 ^ (INT_BITS - 1)) ∧ rv.value_i = -1))) ∧
    (calcExpression regex_match column_cache (expr_node.node op left right)
        = .error Abort.regex_error
      ↔ op = OPER_LIKE ∧ lv.type = TERM_STRING ∧
          regex_match lv.value_s.data (strlike_loop rv.value_s.data strlike_status.A [])
            = none) ∧
    ((∃ v, calcExpression regex_match column_cache (expr_node.node op left right) = .ok v)
      ↔ op ∈ operator_table lv.type ∧
          ¬ (op = OPER_DIV ∧ lv.type = TERM_INT ∧
            (rv.value_i = 0 ∨ (lv.value_i = -(2 ^ (INT_BITS - 1)) ∧ rv.value_i = -1))) ∧
          ¬ (op = OPER_LIKE ∧ lv.type = TERM_STRING ∧
            regex_match lv.value_s.data (strlike_loop rv.value_s.data strlike_status.A [])
              = none)) := by
  cases hop : OPER_UNARY op
  · obtain ⟨hrv, hty⟩ := hr hop
    rw [calcExpression_binary regex_match column_cache op left right lv rv hop hl hrv]
    cases lv <;> cases rv <;> simp [ExprVal.type] at hlv hty <;>
      cases op <;> simp [OPER_UNARY] at hop
    case int.int.OPER_DIV a b =>
      rw [calcOperator_int_div]
      by_cases hc : b = 0 ∨ (a = -(2 ^ (INT_BITS - 1)) ∧ b = -1)
      · simp [hc, operator_table, ExprVal.type, ExprVal.value_i]
      · simp [hc, operator_table, ExprVal.type, ExprVal.value_i]
    case string.string.OPER_LIKE a b =>
      rw [calcOperator_string_like]
      cases hm : regex_match a.data (strlike_loop b.data strlike_status.A []) <;>
        simp [hm, operator_table, ExprVal.type, ExprVal.value_s]
    all_goals
      simp [calcOperator, OPER_UNARY, ExprVal.type, operator_table, ExprVal.value_i]
  · rw [calcExpression_unary regex_match column_cache op left right lv hop hl]
    cases lv <;> simp [ExprVal.type] at hlv <;>
      cases op <;> simp [OPER_UNARY] at hop <;>
      simp [calcOperator, OPER_UNARY, ExprVal.type, operator_table]

/-- Witness of the amended C16: `Bool(true) <> Bool(false)` fails with
IllegalOperator, and the least integer divided by -1 ends in the division
fault. -/
theorem calcExpression_operator_table_witness :
    calcExpression regex_reject [] (expr_node.node OPER_NEQ
        (expr_node.leaf (term.TERM_BOOL true)) (expr_node.leaf (term.TERM_BOOL false)))
      = .error (Abort.exception EXCEPTION_ILLEGAL_OP) ∧
    calcExpression regex_reject [] (expr_node.node OPER_DIV
        (expr_node.leaf (term.TERM_INT (-(2 ^ (INT_BITS - 1)))))
        (expr_node.leaf (term.TERM_INT (-1))))
      = .error Abort.fault :=
  ⟨(calcExpression_operator_table regex_reject [] OPER_NEQ
      (expr_node.leaf (term.TERM_BOOL true)) (expr_node.leaf (term.TERM_BOOL false))
      (ExprVal.bool true) (ExprVal.bool false) rfl (by decide)
      (fun _ => ⟨rfl, rfl⟩)).1.mpr (by decide),
   (calcExpression_operator_table regex_reject [] OPER_DIV
      (expr_node.leaf (term.TERM_INT (-(2 ^ (INT_BITS - 1)))))
      (expr_node.leaf (term.TERM_INT (-1)))
      (ExprVal.int (-(2 ^ (INT_BITS - 1)))) (ExprVal.int (-1)) rfl (by decide)
      (fun _ => ⟨rfl, rfl⟩)).2.1.mpr ⟨rfl, rfl, Or.inr ⟨rfl, rfl⟩⟩⟩

/-! ## Failure propagation -/

/-- C17: an operator node fails with the failure of its left child, whatever
the right child does; a binary node whose left child evaluates fails with the
failure of its right child, whatever the left value and the operator; a unary
node does not depend on its right child. -/
theorem calcExpression_propagates (regex_match : List Char → List Char → Option Bool)
    (column_cache : column_cache_t) (op : operator_type) (left right : expr_node) :
    (∀ e, calcExpression regex_match column_cache left = .error e →
      calcExpression regex_match column_cache (expr_node.node op left right) = .error e) ∧
    (∀ lv e, calcExpression regex_match column_cache left = .ok lv →
      OPER_UNARY op = false →
      calcExpression regex_match column_cache right = .error e →
      calcExpression regex_match column_cache (expr_node.node op left right) = .error e) ∧
    (OPER_UNARY op = true → ∀ right2 : expr_node,
      calcExpression regex_match column_cache (expr_node.node op left right)
        = calcExpression regex_match column_cache (expr_node.node op left right2)) := by
  refine ⟨?_, ?_, ?_⟩
  · intro e hl
    simp [calcExpression, hl]
  · intro lv e hl hop hr
    simp [calcExpression, hl, hop, hr]
  · intro hop right2
    simp [calcExpression, hop]

/-- Witness of C17: `Bool(false) AND <unknown column>` fails with UnknownColumn. -/
theorem calcExpression_propagates_witness :
    calcExpression regex_reject [] (expr_node.node OPER_AND
        (expr_node.leaf (term.TERM_BOOL false))
        (expr_node.leaf (term.TERM_COLUMN ⟨none, "c"⟩)))
      = .error (Abort.exception EXCEPTION_UNKOWN_COLUMN) :=
  (calcExpression_propagates regex_reject [] OPER_AND
    (expr_node.leaf (term.TERM_BOOL false))
    (expr_node.leaf (term.TERM_COLUMN ⟨none, "c"⟩))).2.1
    (ExprVal.bool false) (Abort.exception EXCEPTION_UNKOWN_COLUMN) rfl rfl rfl

/-! ## Direct value primitives: Null and mismatch policy -/

/-- C18: for `operator<` and `operator+=` on values `a` and `b`: if either is
Null, `<` returns false and `+=` leaves `a` unchanged; if both are non-Null of
different variants both fail with DifferentOperandType; on two Ints `<` is the
integer comparison and `+=` sets `a` to the sum (taken modulo `2^INT_BITS`,
the sum itself when it is in range); on two Strings or two Bools both fail
with IllegalOperator. -/
theorem operator_lt_add_assign_policy (a b : ExprVal) :
    (a.type = TERM_NULL ∨ b.type = TERM_NULL →
      a.operator_lt b = .ok false ∧ a.operator_add_assign b = .ok a) ∧
    (a.type ≠ TERM_NULL → b.type ≠ TERM_NULL → a.type ≠ b.type →
      a.operator_lt b = .error (Abort.exception EXCEPTION_DIFF_TYPE) ∧
      a.operator_add_assign b = .error (Abort.exception EXCEPTION_DIFF_TYPE)) ∧
    (∀ x y : Int, a = ExprVal.int x → b = ExprVal.int y →
      a.operator_lt b = .ok (decide (x < y)) ∧
      a.operator_add_assign b = .ok (ExprVal.int (int_wrap (x + y))) ∧
      (int_in_range (x + y) → a.operator_add_assign b = .ok (ExprVal.int (x + y)))) ∧
    ((a.type = TERM_STRING ∧ b.type = TERM_STRING) ∨
        (a.type = TERM_BOOL ∧ b.type = TERM_BOOL) →
      a.operator_lt b = .error (Abort.exception EXCEPTION_ILLEGAL_OP) ∧
      a.operator_add_assign b = .error (Abort.exception EXCEPTION_ILLEGAL_OP)) := by
  refine ⟨?_, ?_, ?_, ?_⟩
  · intro h
    have h2 : b.type = TERM_NULL ∨ a.type = TERM_NULL := h.symm
    simp [ExprVal.operator_lt, ExprVal.operator_add_assign, h2]
  · intro ha hb hne
    simp [ExprVal.operator_lt, ExprVal.operator_add_assign, ha, hb, hne]
  · intro x y hx hy
    subst hx hy
    refine ⟨?_, ?_, ?_⟩
    · simp [ExprVal.operator_lt, ExprVal.type, ExprVal.value_i]
    · simp [ExprVal.operator_add_assign, ExprVal.type, ExprVal.value_i]
    · intro hr
      simp [ExprVal.operator_add_assign, ExprVal.type, ExprVal.value_i,
        int_wrap_of_in_range _ hr]
  · intro h
    cases a <;> cases b <;> simp [ExprVal.type] at h <;>
      simp [ExprVal.operator_lt, ExprVal.operator_add_assign, ExprVal.type]

/-- Witness of C18: a Null accumulator stays Null under `+= Int(5)`, `Int(1)`
against `String("a")` fails with DifferentOperandType, `Int(3) += Int(4)` is
`Int(7)`, and two Bools fail with IllegalOperator. -/
theorem operator_lt_add_assign_policy_witness :
    (ExprVal.null.operator_lt (ExprVal.int 5) = .ok false ∧
      ExprVal.null.operator_add_assign (ExprVal.int 5) = .ok ExprVal.null) ∧
    ((ExprVal.int 1).operator_lt (ExprVal.string "a")
        = .error (Abort.exception EXCEPTION_DIFF_TYPE) ∧
      (ExprVal.int 1).operator_add_assign (ExprVal.string "a")
        = .error (Abort.exception EXCEPTION_DIFF_TYPE)) ∧
    (ExprVal.int 3).operator_add_assign (ExprVal.int 4) = .ok (ExprVal.int 7) ∧
    ((ExprVal.bool true).operator_lt (ExprVal.bool false)
        = .error (Abort.exception EXCEPTION_ILLEGAL_OP) ∧
      (ExprVal.bool true).operator_add_assign (ExprVal.bool false)
        = .error (Abort.exception EXCEPTION_ILLEGAL_OP)) :=
  ⟨(operator_lt_add_assign_policy ExprVal.null (ExprVal.int 5)).1 (Or.inl rfl),
   (operator_lt_add_assign_policy (ExprVal.int 1) (ExprVal.string "a")).2.1
     (by decide) (by decide) (by decide),
   ((operator_lt_add_assign_policy (ExprVal.int 3) (ExprVal.int 4)).2.2.1 3 4 rfl rfl).2.2
     (by unfold int_in_range INT_BITS; decide),
   (operator_lt_add_assign_policy (ExprVal.bool true) (ExprVal.bool false)).2.2.2
     (Or.inr ⟨rfl, rfl⟩)⟩

/-! ## `IS NULL` on evaluated values -/

/-- C20: when `x` evaluates to a value `v`, `x IS NULL` evaluates to
Bool(true) if `v` is Null and to Bool(false) if `v` is an Int, a Double, a
String or a Bool. -/
theorem calcExpression_isnull_exact (regex_match : List Char → List Char → Option Bool)
    (column_cache : column_cache_t) (x right : expr_node) (v : ExprVal)
    (hx : calcExpression regex_match column_cache x = .ok v) :
    calcExpression regex_match column_cache (expr_node.node OPER_ISNULL x right)
      = .ok (ExprVal.bool (decide (v.type = TERM_NULL))) ∧
    (v = ExprVal.null →
      calcExpression regex_match column_cache (expr_node.node OPER_ISNULL x right)
        = .ok (ExprVal.bool true)) ∧
    (v ≠ ExprVal.null →
      calcExpression regex_match column_cache (expr_node.node OPER_ISNULL x right)
        = .ok (ExprVal.bool false)) := by
  rw [calcExpression_unary regex_match column_cache OPER_ISNULL x right v rfl hx]
  cases v <;> simp [calcOperator, OPER_UNARY, ExprVal.type]

/-- Witness of C20: `(Int(1) + Null) IS NULL` is Bool(true), and so is
`c IS NULL` for a column `c` whose cached value is Null. -/
theorem calcExpression_isnull_exact_witness :
    calcExpression regex_reject [] (expr_node.node OPER_ISNULL
        (expr_node.node OPER_ADD (expr_node.leaf (term.TERM_INT 1))
          (expr_node.leaf term.TERM_NULL))
        (expr_node.leaf term.TERM_NULL))
      = .ok (ExprVal.bool true) ∧
    calcExpression regex_reject [("c", "t", ExprVal.null)] (expr_node.node OPER_ISNULL
        (expr_node.leaf (term.TERM_COLUMN ⟨none, "c"⟩)) (expr_node.leaf term.TERM_NULL))
      = .ok (ExprVal.bool true) :=
  ⟨(calcExpression_isnull_exact regex_reject []
      (expr_node.node OPER_ADD (expr_node.leaf (term.TERM_INT 1))
        (expr_node.leaf term.TERM_NULL))
      (expr_node.leaf term.TERM_NULL) ExprVal.null rfl).2.1 rfl,
   (calcExpression_isnull_exact regex_reject [("c", "t", ExprVal.null)]
      (expr_node.leaf (term.TERM_COLUMN ⟨none, "c"⟩))
      (expr_node.leaf term.TERM_NULL) ExprVal.null
      (by
        have h : ¬ "c" < "c" := string_not_lt_of_data (by decide)
        simp [calcExpression, term2val, multimap_count, multimap_find,
          multimap_lower_bound, term2val_scan, h])).2.1 rfl⟩

/-! ## The regular-expression library: reading back the text of terms -/

/-- The model engine conforms. -/
theorem std_regex_model_conforms : regex_conforms std_regex_model := by
  intro subject regstr r h
  simp [std_regex_model, h]

/-- Flushing a pending atom in front of accepted terms. -/
theorem regex_flush_accepted (pending : Option regex_atom) (terms : List regex_term) :
    regex_flush pending (regex_outcome.accepted terms)
      = regex_outcome.accepted
          ((match pending with | some a => [⟨a, false⟩] | none => []) ++ terms) := by
  cases pending <;> rfl

/-- Inside a bracket expression plain members are collected up to `]`. -/
theorem regex_parse_bracket_members (negated : Bool) (rest : List Char) (ms : List Char) :
    ∀ ms0 : List Char, (∀ m ∈ ms, regex_bracket_member m = true) → ms0 ++ ms ≠ [] →
      regex_parse (regex_mode.bracket negated ms0) (ms ++ ']' :: rest)
        = regex_parse (regex_mode.term (some (regex_atom.bracket negated (ms0 ++ ms)))) rest := by
  induction ms with
  | nil =>
    intro ms0 _ hne
    simp at hne
    simp [regex_parse, hne]
  | cons m ms ih =>
    intro ms0 hm _
    have hmm : regex_bracket_member m = true := hm m (List.mem_cons_self _ _)
    have hne : m ≠ ']' := by
      rintro rfl
      simp [regex_bracket_member] at hmm
    have h2 := ih (ms0 ++ [m]) (fun x hx => hm x (List.mem_cons_of_mem _ hx)) (by simp)
    have h3 : regex_parse (regex_mode.bracket negated ms0) ((m :: ms) ++ ']' :: rest)
        = regex_parse (regex_mode.bracket negated (ms0 ++ [m])) (ms ++ ']' :: rest) := by
      simp only [List.cons_append, regex_parse, hne, if_false, hmm, if_true]
      rfl
    rw [h3, h2]
    simp

/-- After `[`, an optional `^` and plain members up to `]` make a bracket atom. -/
theorem regex_parse_bracket_open (negated : Bool) (ms rest : List Char)
    (hm : ∀ m ∈ ms, regex_bracket_member m = true) (hne : ms ≠ []) :
    regex_parse regex_mode.bracket_open
        ((if negated then ['^'] else []) ++ ms ++ ']' :: rest)
      = regex_parse (regex_mode.term (some (regex_atom.bracket negated ms))) rest := by
  cases negated with
  | true =>
    have h := regex_parse_bracket_members true rest ms [] hm (by simpa using hne)
    simpa [regex_parse] using h
  | false =>
    cases ms with
    | nil => exact absurd rfl hne
    | cons m ms =>
      have hmm : regex_bracket_member m = true := hm m (List.mem_cons_self _ _)
      have hn : m ≠ '^' := by
        rintro rfl
        simp [regex_bracket_member] at hmm
      have h := regex_parse_bracket_members false rest ms [m]
        (fun x hx => hm x (List.mem_cons_of_mem _ hx)) (by simp)
      simpa [regex_parse, hn, hmm] using h

/-- The text of a plain atom is read as that atom, pending a quantifier. -/
theorem regex_parse_atom (a : regex_atom) (ha : a.plain) (pending : Option regex_atom)
    (rest : List Char) :
    regex_parse (regex_mode.term pending) (a.render ++ rest)
      = regex_flush pending (regex_parse (regex_mode.term (some a)) rest) := by
  cases a with
  | chr c =>
    have hc : regex_syntax_char c = false := ha
    have h1 : c ≠ '*' := by rintro rfl; simp [regex_syntax_char] at hc
    have h2 : c ≠ '[' := by rintro rfl; simp [regex_syntax_char] at hc
    have h3 : c ≠ '.' := by rintro rfl; simp [regex_syntax_char] at hc
    simp [regex_atom.render, regex_parse, h1, h2, h3, hc]
  | any => simp [regex_atom.render, regex_parse]
  | bracket negated ms =>
    obtain ⟨hne, hm⟩ := ha
    have h := regex_parse_bracket_open negated ms rest hm hne
    simp only [regex_atom.render, List.append_assoc, List.singleton_append, List.cons_append,
      List.nil_append] at h ⊢
    simp [regex_parse, h]

/-- Reading the text of plain terms gives the terms back. -/
theorem regex_parse_render (terms : List regex_term) (h : ∀ t ∈ terms, t.atom.plain) :
    ∀ pending : Option regex_atom,
      regex_parse (regex_mode.term pending) (terms.flatMap regex_term.render)
        = regex_flush pending (regex_outcome.accepted terms) := by
  induction terms with
  | nil => intro pending; simp [regex_parse]
  | cons t terms ih =>
    intro pending
    have ht : t.atom.plain := h t (List.mem_cons_self _ _)
    have ih2 := ih (fun x hx => h x (List.mem_cons_of_mem _ hx))
    obtain ⟨a, star⟩ := t
    cases star with
    | false =>
      simp only [List.flatMap_cons, regex_term.render, Bool.false_eq_true, if_false,
        List.append_nil]
      rw [regex_parse_atom a ht pending, ih2 (some a)]
      cases pending <;> rfl
    | true =>
      simp only [List.flatMap_cons, regex_term.render, if_true, List.append_assoc,
        List.singleton_append]
      rw [regex_parse_atom a ht pending]
      simp only [regex_parse, if_true]
      rw [ih2 none]
      cases pending <;> rfl

/-- The text of a plain term does not start with `*`. -/
theorem regex_term_render_head (t : regex_term) (ht : t.atom.plain) (rest : List Char) :
    ∃ c tail, t.render ++ rest = c :: tail ∧ c ≠ '*' := by
  obtain ⟨a, star⟩ := t
  cases a with
  | chr c =>
    have hc : regex_syntax_char c = false := ht
    have h1 : c ≠ '*' := by rintro rfl; simp [regex_syntax_char] at hc
    exact ⟨c, _, rfl, h1⟩
  | any => exact ⟨'.', _, rfl, by decide⟩
  | bracket negated ms => exact ⟨'[', _, rfl, by decide⟩

/-- The constructor accepts the text of plain terms as these terms. -/
theorem std_regex_ctor_render (terms : List regex_term) (h : ∀ t ∈ terms, t.atom.plain) :
    std_regex_ctor (terms.flatMap regex_term.render) = regex_outcome.accepted terms := by
  have hp := regex_parse_render terms h none
  cases terms with
  | nil => simpa [std_regex_ctor] using hp
  | cons t terms =>
    obtain ⟨c, tail, hc, hne⟩ := regex_term_render_head t (h t (List.mem_cons_self _ _))
      (terms.flatMap regex_term.render)
    rw [List.flatMap_cons] at hp ⊢
    rw [hc] at hp ⊢
    simp only [std_regex_ctor, hne, if_false]
    exact hp

/-- On the text of plain terms a conforming engine returns the match of these
terms against the subject. -/
theorem regex_conforms_render (regex_match : List Char → List Char → Option Bool)
    (hconf : regex_conforms regex_match) (terms : List regex_term)
    (h : ∀ t ∈ terms, t.atom.plain) (subject : List Char) :
    regex_match subject (terms.flatMap regex_term.render)
      = some (regex_terms_match terms subject) := by
  apply hconf
  simp [std_regex_spec, std_regex_ctor_render terms h]

/-! ## The regular-expression library: matching -/

/-- A starred atom in front of a continuation takes a run of characters that
the atom matches and leaves the rest to the continuation. -/
theorem regex_star_match_iff (p : Char → Bool) (k : List Char → Bool) (s : List Char) :
    regex_star_match p k s = true
      ↔ ∃ run rest, s = run ++ rest ∧ (∀ c ∈ run, p c = true) ∧ k rest = true := by
  induction s with
  | nil =>
    simp only [regex_star_match]
    constructor
    · intro h
      exact ⟨[], [], rfl, by simp, h⟩
    · rintro ⟨run, rest, hs, _, hk⟩
      have h0 := List.append_eq_nil.mp hs.symm
      rw [h0.2] at hk
      exact hk
  | cons c s ih =>
    simp only [regex_star_match, Bool.or_eq_true, Bool.and_eq_true, ih]
    constructor
    · rintro (h | ⟨hp, run, rest, hs, hrun, hk⟩)
      · exact ⟨[], c :: s, rfl, by simp, h⟩
      · refine ⟨c :: run, rest, by simp [hs], ?_, hk⟩
        intro x hx
        rcases List.mem_cons.mp hx with rfl | hx
        · exact hp
        · exact hrun x hx
    · rintro ⟨run, rest, hs, hrun, hk⟩
      cases run with
      | nil =>
        left
        simp at hs
        rw [hs]
        exact hk
      | cons x run =>
        right
        simp at hs
        obtain ⟨rfl, rfl⟩ := hs
        exact ⟨hrun _ (List.mem_cons_self _ _), run, rest, rfl,
          fun y hy => hrun y (List.mem_cons_of_mem _ hy), hk⟩

/-- Unstarred ordinary characters match exactly their own text. -/
theorem regex_terms_match_literal (r : List Char) :
    ∀ s : List Char,
      regex_terms_match (r.map (fun c => (⟨regex_atom.chr c, false⟩ : regex_term))) s
        = decide (s = r) := by
  induction r with
  | nil => intro s; cases s <;> simp [regex_terms_match]
  | cons c r ih =>
    intro s
    cases s with
    | nil => simp [regex_terms_match]
    | cons x s =>
      simp only [List.map_cons, regex_terms_match, Bool.false_eq_true, if_false,
        regex_atom_matches, ih s]
      by_cases hx : x = c <;> by_cases hs : s = r <;> simp [hx, hs]

/-- The terms of a wildcard pattern match a subject exactly when the subject
splits along the pattern, the wildcards taking no line terminator. -/
theorem regex_terms_match_like (pattern : List Char) :
    ∀ s : List Char,
      regex_terms_match (like_terms pattern) s = true
        ↔ like_split (fun c => c ≠ '\n' ∧ c ≠ '\r') pattern s := by
  induction pattern with
  | nil => intro s; cases s <;> simp [like_terms, regex_terms_match, like_split]
  | cons p pattern ih =>
    intro s
    by_cases h1 : p = '%'
    · simp only [like_terms, like_split, h1, if_true, regex_terms_match,
        regex_star_match_iff, ih]
      constructor
      · rintro ⟨run, rest, hs, hrun, hk⟩
        exact ⟨run, rest, hs, fun c hc => by simpa [regex_atom_matches] using hrun c hc, hk⟩
      · rintro ⟨run, rest, hs, hrun, hk⟩
        exact ⟨run, rest, hs, fun c hc => by simpa [regex_atom_matches] using hrun c hc, hk⟩
    · by_cases h2 : p = '_'
      · have h3 : ¬ ('_' : Char) = '%' := by decide
        cases s with
        | nil => simp [like_terms, like_split, h2, h3, regex_terms_match]
        | cons x s =>
          simp only [like_terms, like_split, h2, h3, if_true, if_false, regex_terms_match,
            regex_atom_matches, Bool.false_eq_true, Bool.and_eq_true, ih]
          constructor
          · rintro ⟨hx, hk⟩
            exact ⟨x, s, rfl, by simpa using hx, hk⟩
          · rintro ⟨c, rest, hs, hc, hk⟩
            simp at hs
            obtain ⟨rfl, rfl⟩ := hs
            exact ⟨by simpa using hc, hk⟩
      · cases s with
        | nil => simp [like_terms, like_split, h1, h2, regex_terms_match]
        | cons x s =>
          simp only [like_terms, like_split, h1, h2, if_false, regex_terms_match,
            regex_atom_matches, Bool.false_eq_true, Bool.and_eq_true, ih]
          constructor
          · rintro ⟨hx, hk⟩
            simp at hx
            exact ⟨s, by rw [hx], hk⟩
          · rintro ⟨rest, hs, hk⟩
            simp at hs
            obtain ⟨rfl, rfl⟩ := hs
            exact ⟨by simp, hk⟩

/-- A negated bracket expression matches the subjects of one character that
is not a member. -/
theorem regex_terms_match_negated_bracket (members s : List Char) :
    regex_terms_match [⟨regex_atom.bracket true members, false⟩] s = true
      ↔ ∃ x, s = [x] ∧ x ∉ members := by
  cases s with
  | nil => simp [regex_terms_match]
  | cons x s =>
    cases s with
    | nil => simp [regex_terms_match, regex_atom_matches]
    | cons y s => simp [regex_terms_match, regex_atom_matches]

/-! ## `strlike`: translation of the pattern -/

/-- The loop of `strlike` only appends to `regstr`. -/
theorem strlike_loop_append (b : List Char) :
    ∀ (status : strlike_status) (regstr : List Char),
      strlike_loop b status regstr = regstr ++ strlike_loop b status [] := by
  induction b with
  | nil => intro status regstr; cases status <;> simp [strlike_loop]
  | cons bi b ih =>
    intro status regstr
    cases status with
    | A =>
      simp only [strlike_loop]
      split_ifs
      · exact ih _ _
      · rw [ih _ (regstr ++ ['[']), ih _ ([] ++ ['['])]; simp
      · rw [ih _ (regstr ++ ['.', '*']), ih _ ([] ++ ['.', '*'])]; simp
      · rw [ih _ (regstr ++ ['.']), ih _ ([] ++ ['.'])]; simp
      · rw [ih _ (regstr ++ [bi]), ih _ ([] ++ [bi])]; simp
    | B =>
      simp only [strlike_loop]
      split_ifs
      · rw [ih _ (regstr ++ [bi]), ih _ ([] ++ [bi])]; simp
      · rw [ih _ (regstr ++ ['\\'] ++ [bi]), ih _ ([] ++ ['\\'] ++ [bi])]; simp
    | C =>
      simp only [strlike_loop]
      split_ifs
      · rw [ih _ (regstr ++ ['^']), ih _ ([] ++ ['^'])]; simp
      · rw [ih _ (regstr ++ [bi]), ih _ ([] ++ [bi])]; simp

/-- A letter or digit differs from every character that is neither. -/
theorem isAlphanum_ne (c k : Char) (hc : c.isAlphanum = true) (hk : k.isAlphanum = false) :
    c ≠ k := by
  intro h
  rw [h, hk] at hc
  cases hc

/-- A letter or digit is an ordinary character of the regular-expression
grammar. -/
theorem isAlphanum_ordinary (c : Char) (hc : c.isAlphanum = true) :
    regex_syntax_char c = false := by
  have h := fun k hk => isAlphanum_ne c k hc hk
  simp [regex_syntax_char, h '^' (by decide), h '$' (by decide), h '\\' (by decide),
    h '.' (by decide), h '*' (by decide), h '+' (by decide), h '?' (by decide),
    h '(' (by decide), h ')' (by decide), h '[' (by decide), h ']' (by decide),
    h '{' (by decide), h '}' (by decide), h '|' (by decide)]

/-- A letter or digit is a plain member of a bracket expression. -/
theorem isAlphanum_bracket_member (c : Char) (hc : c.isAlphanum = true) :
    regex_bracket_member c = true := by
  have h := fun k hk => isAlphanum_ne c k hc hk
  simp [regex_bracket_member, h '\\' (by decide), h ']' (by decide), h '-' (by decide),
    h '[' (by decide), h '^' (by decide)]

/-- In the default state a pattern of wildcards and ordinary characters is
translated term by term: `%` to `.*`, `_` to `.`, an ordinary character to
itself. -/
theorem strlike_loop_like (b : List Char)
    (hb : ∀ c ∈ b, c = '%' ∨ c = '_' ∨ regex_syntax_char c = false) :
    strlike_loop b strlike_status.A [] = (like_terms b).flatMap regex_term.render := by
  induction b with
  | nil => rfl
  | cons bi b ih =>
    have ih2 := ih (fun c hc => hb c (List.mem_cons_of_mem _ hc))
    by_cases h1 : bi = '%'
    · subst h1
      have e1 : strlike_loop ('%' :: b) strlike_status.A []
          = strlike_loop b strlike_status.A ['.', '*'] := by
        simp [strlike_loop]
      have e2 : like_terms ('%' :: b) = ⟨regex_atom.any, true⟩ :: like_terms b := by
        simp [like_terms]
      rw [e1, e2, strlike_loop_append, ih2]
      rfl
    · by_cases h2 : bi = '_'
      · subst h2
        have e1 : strlike_loop ('_' :: b) strlike_status.A []
            = strlike_loop b strlike_status.A ['.'] := by
          simp [strlike_loop]
        have e2 : like_terms ('_' :: b) = ⟨regex_atom.any, false⟩ :: like_terms b := by
          simp [like_terms]
        rw [e1, e2, strlike_loop_append, ih2]
        rfl
      · have h3 : regex_syntax_char bi = false := by
          rcases hb bi (List.mem_cons_self _ _) with h | h | h
          · exact absurd h h1
          · exact absurd h h2
          · exact h
        have h4 : bi ≠ '\\' := by rintro rfl; simp [regex_syntax_char] at h3
        have h5 : bi ≠ '[' := by rintro rfl; simp [regex_syntax_char] at h3
        have e1 : strlike_loop (bi :: b) strlike_status.A []
            = strlike_loop b strlike_status.A [bi] := by
          simp [strlike_loop, h1, h2, h4, h5]
        have e2 : like_terms (bi :: b) = ⟨regex_atom.chr bi, false⟩ :: like_terms b := by
          simp [like_terms, h1, h2]
        rw [e1, e2, strlike_loop_append, ih2]
        rfl

/-- The terms of a pattern of wildcards and ordinary characters are plain. -/
theorem like_terms_plain (b : List Char)
    (hb : ∀ c ∈ b, c = '%' ∨ c = '_' ∨ regex_syntax_char c = false) :
    ∀ t ∈ like_terms b, t.atom.plain := by
  induction b with
  | nil => intro t ht; cases ht
  | cons bi b ih =>
    intro t ht
    simp only [like_terms, List.mem_cons] at ht
    rcases ht with rfl | ht
    · by_cases h1 : bi = '%'
      · simp [h1, regex_atom.plain]
      · by_cases h2 : bi = '_'
        · simp [h1, h2, regex_atom.plain]
        · rcases hb bi (List.mem_cons_self _ _) with h | h | h
          · exact absurd h h1
          · exact absurd h h2
          · simp [h1, h2, regex_atom.plain, h]
    · exact ih (fun c hc => hb c (List.mem_cons_of_mem _ hc)) t ht

/-- With a conforming engine, `strlike` on a pattern of wildcards and ordinary
characters returns the match of the terms of the pattern. -/
theorem strlike_like_terms (regex_match : List Char → List Char → Option Bool)
    (hconf : regex_conforms regex_match) (a b : String)
    (hb : ∀ c ∈ b.data, c = '%' ∨ c = '_' ∨ regex_syntax_char c = false) :
    strlike regex_match a b = .ok (regex_terms_match (like_terms b.data) a.data) := by
  simp only [strlike, strlike_loop_like b.data hb,
    regex_conforms_render regex_match hconf _ (like_terms_plain b.data hb)]

/-- Without a wildcard the terms of a pattern are its characters. -/
theorem like_terms_literal (b : List Char) (hb : ∀ c ∈ b, c ≠ '%' ∧ c ≠ '_') :
    like_terms b = b.map (fun c => (⟨regex_atom.chr c, false⟩ : regex_term)) := by
  induction b with
  | nil => rfl
  | cons bi b ih =>
    have h := hb bi (List.mem_cons_self _ _)
    simp [like_terms, h.1, h.2, ih (fun c hc => hb c (List.mem_cons_of_mem _ hc))]

/-! ## `LIKE`: wildcards and literal characters -/

/-- C12, counterexample: the subject of one line feed splits along the pattern
`_` (one character for `_`), yet `strlike` returns false on it: `_` is
translated to `.`, which matches no line terminator. -/
theorem strlike_underscore_line_feed :
    (∀ c ∈ "_".data, c.isAlphanum = true ∨ c = '%' ∨ c = '_') ∧
    like_split (fun _ => True) "_".data "\n".data ∧
    strlike std_regex_model "\n" "_" = .ok false := by
  refine ⟨by decide, ?_, rfl⟩
  exact ⟨'\n', [], rfl, trivial, rfl⟩

/-- C12, amended: with a conforming engine, for every pattern made only of
letters, digits, `%` and `_` and every subject, `strlike` returns a Boolean,
true exactly when the subject splits along the pattern with each literal
character taking the same subject character, each `_` taking exactly one
character other than `\n` and `\r`, and each `%` taking any run, possibly
empty, of such characters. -/
theorem strlike_wildcards (regex_match : List Char → List Char → Option Bool)
    (hconf : regex_conforms regex_match) (a b : String)
    (hb : ∀ c ∈ b.data, c.isAlphanum = true ∨ c = '%' ∨ c = '_') :
    ∃ r, strlike regex_match a b = .ok r ∧
      (r = true ↔ like_split (fun c => c ≠ '\n' ∧ c ≠ '\r') b.data a.data) := by
  have hb2 : ∀ c ∈ b.data, c = '%' ∨ c = '_' ∨ regex_syntax_char c = false := by
    intro c hc
    rcases hb c hc with h | h | h
    · exact Or.inr (Or.inr (isAlphanum_ordinary c h))
    · exact Or.inl h
    · exact Or.inr (Or.inl h)
  exact ⟨_, strlike_like_terms regex_match hconf a b hb2,
    regex_terms_match_like b.data a.data⟩

/-- Witness of the amended C12, on the pattern `A%B_` and the subject
`AxyzB9`. -/
theorem strlike_wildcards_witness :
    ∃ r, strlike std_regex_model "AxyzB9" "A%B_" = .ok r ∧
      (r = true ↔ like_split (fun c => c ≠ '\n' ∧ c ≠ '\r') "A%B_".data "AxyzB9".data) :=
  strlike_wildcards std_regex_model std_regex_model_conforms "AxyzB9" "A%B_" (by decide)

/-- The examples of C12: the pattern `A%B_` matches `AxyzB9` and matches
neither `AxyzB` nor `xAxyzB9`. -/
theorem strlike_wildcards_examples :
    strlike std_regex_model "AxyzB9" "A%B_" = .ok true ∧
    strlike std_regex_model "AxyzB" "A%B_" = .ok false ∧
    strlike std_regex_model "xAxyzB9" "A%B_" = .ok false :=
  ⟨rfl, rfl, rfl⟩

/-- C13, counterexample: the pattern `a.b` holds none of `%`, `_`, `\`, `[`
and differs from the subject `axb`, yet it matches it: the `.` is emitted
unescaped. -/
theorem strlike_dot_not_literal :
    (∀ c ∈ "a.b".data, c ≠ '%' ∧ c ≠ '_' ∧ c ≠ '\\' ∧ c ≠ '[') ∧
    "axb" ≠ "a.b" ∧
    strlike std_regex_model "axb" "a.b" = .ok true :=
  ⟨by decide, by decide, rfl⟩

/-- C13, amended: with a conforming engine, for every pattern that holds none
of `%`, `_`, `\`, `[` and no other syntax character of the regular-expression
grammar (`^ $ . * + ? ( ) ] { } |`), and every subject, `strlike` returns
true exactly when the subject equals the pattern. -/
theorem strlike_ordinary_literal (regex_match : List Char → List Char → Option Bool)
    (hconf : regex_conforms regex_match) (a b : String)
    (hb : ∀ c ∈ b.data, c ≠ '%' ∧ c ≠ '_' ∧ regex_syntax_char c = false) :
    strlike regex_match a b = .ok (decide (a = b)) := by
  have hb2 : ∀ c ∈ b.data, c = '%' ∨ c = '_' ∨ regex_syntax_char c = false :=
    fun c hc => Or.inr (Or.inr (hb c hc).2.2)
  rw [strlike_like_terms regex_match hconf a b hb2,
    like_terms_literal b.data (fun c hc => ⟨(hb c hc).1, (hb c hc).2.1⟩),
    regex_terms_match_literal]
  have h : (a.data = b.data) = (a = b) := by
    apply propext
    exact ⟨String.ext, fun h => by rw [h]⟩
  simp only [h]

/-- Witness of the amended C13: the pattern `ab c` matches the subject `ab c`. -/
theorem strlike_ordinary_literal_witness :
    strlike std_regex_model "ab c" "ab c" = .ok true :=
  strlike_ordinary_literal std_regex_model std_regex_model_conforms "ab c" "ab c" (by decide)

/-! ## `LIKE`: escapes, character classes and rejected patterns -/

/-- The text of unstarred ordinary characters is the characters. -/
theorem regex_render_literal (r : List Char) :
    (r.map (fun c => (⟨regex_atom.chr c, false⟩ : regex_term))).flatMap regex_term.render
      = r := by
  induction r with
  | nil => rfl
  | cons c r ih => simp [regex_term.render, regex_atom.render, ih]

/-- With a conforming engine, an expression of ordinary characters matches
exactly its own text. -/
theorem regex_conforms_literal (regex_match : List Char → List Char → Option Bool)
    (hconf : regex_conforms regex_match) (s r : List Char)
    (hr : ∀ c ∈ r, regex_syntax_char c = false) :
    regex_match s r = some (decide (s = r)) := by
  have h := regex_conforms_render regex_match hconf
    (r.map (fun c => (⟨regex_atom.chr c, false⟩ : regex_term)))
    (by
      intro t ht
      obtain ⟨c, hc, rfl⟩ := List.mem_map.mp ht
      exact hr c hc) s
  rw [regex_render_literal, regex_terms_match_literal] at h
  exact h

/-- Letters and digits are copied; the pairs `\%`, `\_`, `\!` give the escaped
character alone. -/
theorem strlike_loop_units (units : List (Bool × Char))
    (hu : ∀ u ∈ units, if u.1 = true then u.2 = '%' ∨ u.2 = '_' ∨ u.2 = '!'
      else u.2.isAlphanum = true) :
    strlike_loop (like_units_text units) strlike_status.A [] = units.map (fun u => u.2) := by
  induction units with
  | nil => rfl
  | cons u units ih =>
    have ih2 := ih (fun x hx => hu x (List.mem_cons_of_mem _ hx))
    have h := hu u (List.mem_cons_self _ _)
    obtain ⟨e, c⟩ := u
    cases e with
    | true =>
      simp only [if_true] at h
      have e1 : like_units_text ((true, c) :: units) = '\\' :: c :: like_units_text units := by
        simp [like_units_text]
      have e2 : strlike_loop ('\\' :: c :: like_units_text units) strlike_status.A []
          = strlike_loop (like_units_text units) strlike_status.A [c] := by
        simp [strlike_loop, h]
      rw [e1, e2, strlike_loop_append, ih2]
      rfl
    | false =>
      simp only [Bool.false_eq_true, if_false] at h
      have h1 := isAlphanum_ne c '\\' h (by decide)
      have h2 := isAlphanum_ne c '[' h (by decide)
      have h3 := isAlphanum_ne c '%' h (by decide)
      have h4 := isAlphanum_ne c '_' h (by decide)
      have e1 : like_units_text ((false, c) :: units) = c :: like_units_text units := by
        simp [like_units_text]
      have e2 : strlike_loop (c :: like_units_text units) strlike_status.A []
          = strlike_loop (like_units_text units) strlike_status.A [c] := by
        simp [strlike_loop, h1, h2, h3, h4]
      rw [e1, e2, strlike_loop_append, ih2]
      rfl

/-- C14: with a conforming engine, for every pattern built from letters, digits
and the escaped pairs `\%`, `\_`, `\!`, and every subject, `strlike` returns
true exactly when the subject is the pattern with the backslashes removed. -/
theorem strlike_escaped_literal (regex_match : List Char → List Char → Option Bool)
    (hconf : regex_conforms regex_match) (a : String) (units : List (Bool × Char))
    (hu : ∀ u ∈ units, if u.1 = true then u.2 = '%' ∨ u.2 = '_' ∨ u.2 = '!'
      else u.2.isAlphanum = true) :
    strlike regex_match a (String.mk (like_units_text units))
      = .ok (decide (a.data = units.map (fun u => u.2))) := by
  have hr : ∀ c ∈ units.map (fun u => u.2), regex_syntax_char c = false := by
    intro c hc
    obtain ⟨u, hmem, rfl⟩ := List.mem_map.mp hc
    have h := hu u hmem
    by_cases he : u.1 = true
    · rw [if_pos he] at h
      rcases h with h | h | h <;> rw [h] <;> decide
    · rw [if_neg he] at h
      exact isAlphanum_ordinary _ h
  simp only [strlike, strlike_loop_units units hu,
    regex_conforms_literal regex_match hconf a.data _ hr]

/-- Witness of C14: the pattern `A\%B` matches the subject `A%B` and does not
match `AxB` or `AB`. -/
theorem strlike_escaped_literal_witness :
    strlike std_regex_model "A%B" "A\\%B" = .ok true ∧
    strlike std_regex_model "AxB" "A\\%B" = .ok false ∧
    strlike std_regex_model "AB" "A\\%B" = .ok false :=
  ⟨strlike_escaped_literal std_regex_model std_regex_model_conforms "A%B"
      [(false, 'A'), (true, '%'), (false, 'B')] (by decide),
   strlike_escaped_literal std_regex_model std_regex_model_conforms "AxB"
      [(false, 'A'), (true, '%'), (false, 'B')] (by decide),
   strlike_escaped_literal std_regex_model std_regex_model_conforms "AB"
      [(false, 'A'), (true, '%'), (false, 'B')] (by decide)⟩

/-- In the default state a pattern without `\`, `[`, `%`, `_` is copied. -/
theorem strlike_loop_copy (b : List Char)
    (hb : ∀ c ∈ b, c ≠ '\\' ∧ c ≠ '[' ∧ c ≠ '%' ∧ c ≠ '_') :
    strlike_loop b strlike_status.A [] = b := by
  induction b with
  | nil => rfl
  | cons bi b ih =>
    obtain ⟨h1, h2, h3, h4⟩ := hb bi (List.mem_cons_self _ _)
    have e : strlike_loop (bi :: b) strlike_status.A []
        = strlike_loop b strlike_status.A [bi] := by
      simp [strlike_loop, h1, h2, h3, h4]
    rw [e, strlike_loop_append, ih (fun c hc => hb c (List.mem_cons_of_mem _ hc))]
    rfl

/-- C15: `[` emits the class opener, a `!` right after it is translated to `^`
and any other character is emitted unchanged, and the translation goes on in
the default state; with a conforming engine, for every non-empty list `cs` of
letters or digits the pattern `[!cs]` matches a subject exactly when the
subject is a single character different from every character of `cs`. -/
theorem strlike_negated_class :
    (∀ (b regstr : List Char),
      strlike_loop ('[' :: '!' :: b) strlike_status.A regstr
        = strlike_loop b strlike_status.A (regstr ++ ['[', '^'])) ∧
    (∀ (c : Char) (b regstr : List Char), c ≠ '!' →
      strlike_loop ('[' :: c :: b) strlike_status.A regstr
        = strlike_loop b strlike_status.A (regstr ++ ['[', c])) ∧
    (∀ (regex_match : List Char → List Char → Option Bool) (a : String) (cs : List Char),
      regex_conforms regex_match → cs ≠ [] → (∀ c ∈ cs, c.isAlphanum = true) →
      ∃ r, strlike regex_match a (String.mk ('[' :: '!' :: (cs ++ [']']))) = .ok r ∧
        (r = true ↔ ∃ x, a.data = [x] ∧ x ∉ cs)) := by
  refine ⟨?_, ?_, ?_⟩
  · intro b regstr
    simp [strlike_loop]
  · intro c b regstr hc
    simp [strlike_loop, hc]
  · intro regex_match a cs hconf hne hcs
    have hcopy : strlike_loop (cs ++ [']']) strlike_status.A [] = cs ++ [']'] := by
      apply strlike_loop_copy
      intro c hc
      rcases List.mem_append.mp hc with h | h
      · have hc2 := hcs c h
        exact ⟨isAlphanum_ne c _ hc2 (by decide), isAlphanum_ne c _ hc2 (by decide),
          isAlphanum_ne c _ hc2 (by decide), isAlphanum_ne c _ hc2 (by decide)⟩
      · simp at h
        subst h
        decide
    have htr : strlike_loop ('[' :: '!' :: (cs ++ [']'])) strlike_status.A []
        = [(⟨regex_atom.bracket true cs, false⟩ : regex_term)].flatMap regex_term.render := by
      have e : strlike_loop ('[' :: '!' :: (cs ++ [']'])) strlike_status.A []
          = strlike_loop (cs ++ [']']) strlike_status.A ['[', '^'] := by
        simp [strlike_loop]
      rw [e, strlike_loop_append, hcopy]
      simp [regex_term.render, regex_atom.render]
    have hplain : ∀ t ∈ [(⟨regex_atom.bracket true cs, false⟩ : regex_term)],
        t.atom.plain := by
      intro t ht
      simp at ht
      subst ht
      exact ⟨hne, fun m hm => isAlphanum_bracket_member m (hcs m hm)⟩
    refine ⟨regex_terms_match [⟨regex_atom.bracket true cs, false⟩] a.data, ?_,
      regex_terms_match_negated_bracket cs a.data⟩
    simp only [strlike, htr, regex_conforms_render regex_match hconf _ hplain]

/-- Witness of C15: the pattern `[!abc]` on the subject `d`. -/
theorem strlike_negated_class_witness :
    ∃ r, strlike std_regex_model "d" "[!abc]" = .ok r ∧
      (r = true ↔ ∃ x, "d".data = [x] ∧ x ∉ ['a', 'b', 'c']) :=
  strlike_negated_class.2.2 std_regex_model "d" ['a', 'b', 'c']
    std_regex_model_conforms (by decide) (by decide)

/-- The examples of C15: `[!abc]` matches `d` and matches none of `a`, the
empty subject and `de`. -/
theorem strlike_negated_class_examples :
    strlike std_regex_model "d" "[!abc]" = .ok true ∧
    strlike std_regex_model "a" "[!abc]" = .ok false ∧
    strlike std_regex_model "" "[!abc]" = .ok false ∧
    strlike std_regex_model "de" "[!abc]" = .ok false :=
  ⟨rfl, rfl, rfl, rfl⟩

/-- With a conforming engine the patterns `[`, `[a` and `*` make `strlike`
leave with `std::regex_error`, whatever the subject. -/
theorem strlike_rejected_patterns (regex_match : List Char → List Char → Option Bool)
    (hconf : regex_conforms regex_match) (a : String) :
    strlike regex_match a "[" = .error Abort.regex_error ∧
    strlike regex_match a "[a" = .error Abort.regex_error ∧
    strlike regex_match a "*" = .error Abort.regex_error := by
  have h1 : regex_match a.data ['['] = none := hconf a.data ['['] none rfl
  have h2 : regex_match a.data ['[', 'a'] = none := hconf a.data ['[', 'a'] none rfl
  have h3 : regex_match a.data ['*'] = none := hconf a.data ['*'] none rfl
  have e1 : strlike_loop "[".data strlike_status.A [] = ['['] := rfl
  have e2 : strlike_loop "[a".data strlike_status.A [] = ['[', 'a'] := rfl
  have e3 : strlike_loop "*".data strlike_status.A [] = ['*'] := rfl
  refine ⟨?_, ?_, ?_⟩
  · simp only [strlike, e1, h1]
  · simp only [strlike, e2, h2]
  · simp only [strlike, e3, h3]

end SimpleDB
